import Mathlib

set_option linter.unusedVariables false

/-!
Verification of the xcc compiler core against its specification.

Shallow embedding of the relevant parts of the source:
  - `src/wasm/src/gen_wasm.c`   (LEB128 emitters)
  - `src/wasm/src/wcc.c`        (module section layout, CLI driver)
  - `src/src/cc/backend/regalloc.c`      (linear-scan register allocator)
  - `src/src/cc/backend/codegen_expr.c`  (constant folding, cast, funarg
    simplification)
  - `src/src/as/parse_asm.c`    (assembler directives)

Machine integers are modelled as `Nat`/`Int`; two's-complement effects are
made explicit where the C code relies on them.
-/

namespace Xcc

/-! ### LEB128 encoding, from `emit_leb128` / `emit_uleb128` in gen_wasm.c

The C functions append bytes into a local `unsigned char buf[5]` and then
insert `p - buf` bytes into the data storage.  `uleb128_bytes`/`leb128_bytes`
below are the byte sequences the encoding loops produce; the local buffer in
the C code can hold only 5 of them. -/

/-- Bytes written by the loop of `emit_uleb128` (gen_wasm.c:45):
while `val >= 128` emit `(val & 0x7f) | 0x80` and shift right by 7,
then emit the final byte `val & 0x7f`. -/
def uleb128_bytes (val : Nat) : List Nat :=
  if val < 128 then [val % 128]
  else (val % 128 + 128) :: uleb128_bytes (val / 128)
termination_by val
decreasing_by exact Nat.div_lt_self (by omega) (by norm_num)

/-- Bytes written by the loop of `emit_leb128` (gen_wasm.c:31):
while `val` is outside `[-64, 64)` emit `(val & 0x7f) | 0x80` and
arithmetic-shift right by 7 (floor division), then emit `val & 0x7f`. -/
def leb128_bytes (val : Int) : List Nat :=
  if val < 64 ∧ -64 ≤ val then [(val.emod 128).toNat]
  else ((val.emod 128).toNat + 128) :: leb128_bytes (val.ediv 128)
termination_by val.natAbs
decreasing_by
  have h0 : (0 : Int) ≤ val.emod 128 := Int.emod_nonneg val (by norm_num)
  have h1 : val.emod 128 < 128 := Int.emod_lt_of_pos val (by norm_num)
  have h2 : 128 * val.ediv 128 + val.emod 128 = val := Int.ediv_add_emod val 128
  omega

/-- Modelled from the spec: "WebAssembly LEB128 round-trip: decode(encode(v)) = v".
No decoder exists in this repository (the consumer is the WebAssembly host),
so the standard unsigned LEB128 decoder is written from the spec's words:
7 bits per byte, little-endian groups, high bit is the continuation bit. -/
def decode_uleb128 : List Nat → Option Nat
  | [] => none
  | b :: rest =>
    if b < 128 then some b
    else
      match decode_uleb128 rest with
      | none => none
      | some hi => some (b - 128 + 128 * hi)

/-- Modelled from the spec: signed LEB128 decoder ("signed form sign-extends
the final group"): the final byte's bit 6 is the sign of the remaining value. -/
def decode_leb128 : List Nat → Option Int
  | [] => none
  | b :: rest =>
    if b < 128 then some (if b < 64 then (b : Int) else (b : Int) - 128)
    else
      match decode_leb128 rest with
      | none => none
      | some hi => some ((b : Int) - 128 + 128 * hi)

/-! ### Assembler sections and directives, from parse_asm.c

`handle_directive` (parse_asm.c:473) dispatches on the directive kind; the
argument parsing (labels, immediates, strings) is done before the state
effects we model, so directives are embedded with their parsed payloads.
`DT_EXTN` stands for the source's extern directive. -/

inductive SectionKind
  | SEC_CODE
  | SEC_DATA
  | SEC_BSS
deriving DecidableEq, Repr

inductive AsmIR
  | IR_LABEL (label : Nat)
  | IR_DATA (bytes : List Nat)
  | IR_BSS (size : Nat)
  | IR_ALIGN (align : Nat)
  | IR_ABS_QUAD (label : Nat)
deriving DecidableEq, Repr

/-- Directives as dispatched by `handle_directive`, with parsed payloads.
`.byte/.word/.long/.quad` with an immediate are `DT_FIXED sizeLog value`
(sizeLog = dir - DT_BYTE); `.quad label` is `DT_QUAD_LABEL`. -/
inductive AsmDirective
  | DT_ASCII (str : List Nat)
  | DT_COMM (label : Nat) (count : Nat)
  | DT_TEXT
  | DT_DATA
  | DT_ALIGN (n : Nat)
  | DT_FIXED (sizeLog : Nat) (value : Int)
  | DT_QUAD_LABEL (label : Nat)
  | DT_SECTION
  | DT_GLOBL
  | DT_EXTN
deriving DecidableEq, Repr

structure AsmState where
  current_section : SectionKind
  sec_code : List AsmIR
  sec_data : List AsmIR
  sec_bss : List AsmIR
deriving DecidableEq, Repr

def AsmState.get_section (st : AsmState) : SectionKind → List AsmIR
  | .SEC_CODE => st.sec_code
  | .SEC_DATA => st.sec_data
  | .SEC_BSS => st.sec_bss

/-- Push IRs onto `section_irs[sec]`. -/
def AsmState.push_irs (st : AsmState) (sec : SectionKind) (irs : List AsmIR) : AsmState :=
  match sec with
  | .SEC_CODE => { st with sec_code := st.sec_code ++ irs }
  | .SEC_DATA => { st with sec_data := st.sec_data ++ irs }
  | .SEC_BSS => { st with sec_bss := st.sec_bss ++ irs }

/-- Little-endian bytes `buf[i] = value >> (8*i)` truncated to a byte
(parse_asm.c:534): arithmetic shift is floor division for these positive
shift amounts. -/
def le_bytes (size : Nat) (value : Int) : List Nat :=
  (List.range size).map fun i => ((value.ediv (2 ^ (8 * i))).emod 256).toNat

/-- `handle_directive` from parse_asm.c:473, state effects on
`current_section` and the per-section IR lists. -/
def handle_directive (dir : AsmDirective) (st : AsmState) : AsmState :=
  match dir with
  | .DT_ASCII str => st.push_irs st.current_section [.IR_DATA str]
  | .DT_COMM label count =>
    let st := { st with current_section := .SEC_BSS }
    st.push_irs .SEC_BSS [.IR_LABEL label, .IR_BSS count]
  | .DT_TEXT => { st with current_section := .SEC_CODE }
  | .DT_DATA => { st with current_section := .SEC_DATA }
  | .DT_ALIGN n => st.push_irs st.current_section [.IR_ALIGN n]
  | .DT_FIXED sizeLog value =>
    st.push_irs st.current_section [.IR_DATA (le_bytes (2 ^ sizeLog) value)]
  | .DT_QUAD_LABEL label => st.push_irs st.current_section [.IR_ABS_QUAD label]
  | .DT_SECTION => st
  | .DT_GLOBL => st
  | .DT_EXTN => st

/-! ### Types and constant vregs for the cc backend, from codegen_expr.c -/

/-- Bitwise difference on naturals, `m AND (NOT n)`, in a form the kernel
can evaluate: it is the sub-mask `m` minus the common bits. -/
def ldiff_bits (m n : Nat) : Nat := m - (m &&& n)

/-- Two's-complement bitwise AND on unbounded integers (`Int.land`), written
with constructor cases so that concrete values reduce: a negative number
`-(n+1)` has the bit pattern `NOT n`. -/
def int_land : Int → Int → Int
  | .ofNat m, .ofNat n => .ofNat (m &&& n)
  | .ofNat m, .negSucc n => .ofNat (ldiff_bits m n)
  | .negSucc m, .ofNat n => .ofNat (ldiff_bits n m)
  | .negSucc m, .negSucc n => .negSucc (m ||| n)

/-- Two's-complement bitwise OR on unbounded integers (`Int.lor`). -/
def int_lor : Int → Int → Int
  | .ofNat m, .ofNat n => .ofNat (m ||| n)
  | .ofNat m, .negSucc n => .negSucc (ldiff_bits n m)
  | .negSucc m, .ofNat n => .negSucc (ldiff_bits m n)
  | .negSucc m, .negSucc n => .negSucc (m &&& n)

/-- Two's-complement bitwise NOT on unbounded integers (`Int.lnot`). -/
def int_lnot : Int → Int
  | .ofNat m => .negSucc m
  | .negSucc m => .ofNat m

inductive CTypeKind
  | TY_VOID
  | TY_FIXNUM
  | TY_PTR
  | TY_FLONUM
  | TY_STRUCT
deriving DecidableEq, Repr

/-- Primitive type as seen by the backend: kind, `type_size`, and the
fixnum signedness (meaningful only for `TY_FIXNUM`).  On x86-64
`TARGET_CHAR_BIT = 8` and pointers are 8 bytes. -/
structure CType where
  kind : CTypeKind
  size : Nat
  is_unsigned : Bool
deriving DecidableEq, Repr

/-- `VRegType` flags from `to_vtype` (codegen_expr.c:21): `VRTF_FLONUM` for
flonum types; `VRTF_UNSIGNED` for unsigned fixnum and for every non-fixnum
non-flonum type. -/
structure VRegTypeM where
  size : Nat
  flonum : Bool
  unsig : Bool
deriving DecidableEq, Repr

def to_vtype (t : CType) : VRegTypeM :=
  let is_unsigned := if t.kind = .TY_FIXNUM then t.is_unsigned else true
  if t.kind = .TY_FLONUM then { size := t.size, flonum := true, unsig := false }
  else { size := t.size, flonum := false, unsig := is_unsigned }

/-- A vreg as `gen_cast` / `gen_compare_expr` see it: const flag, the
`fixnum` payload (a two's-complement `int64_t`), and the value type. -/
structure CgVReg where
  flagConst : Bool
  fixnum : Int
  vt : VRegTypeM
deriving DecidableEq, Repr

/-- The constant-payload computation of `gen_cast` (codegen_expr.c:186-197).
`mask = (-1UL) << bit` is the two's-complement pattern `-(2^bit)`;
C's `1 << (bit - 1)` is computed at `int` (32-bit) width, so for `bit = 32`
it yields `INT_MIN`, which sign-extends to the 64-bit pattern `-(2^31)`. -/
def cast_const_value (value : Int) (srcSize : Nat) (dst : CType) : Int :=
  if dst.size < srcSize ∧ dst.size < 8 then
    let bit := dst.size * 8
    let mask : Int := -((2 ^ bit : Nat) : Int)
    let signtest : Int := if bit = 32 then -((2 ^ 31 : Nat) : Int) else ((2 ^ (bit - 1) : Nat) : Int)
    if dst.kind = .TY_FIXNUM ∧ dst.is_unsigned = false ∧ int_land value signtest ≠ 0 then
      int_lor value mask
    else
      int_land value (int_lnot mask)
  else value

/-- Result of `gen_cast` (codegen_expr.c:175): `nullReg` for a void
destination, `same` when the operand vreg is returned unchanged,
`constReg` for the constant-folding branch, `castOp` when an `IR_CAST`
op is emitted into a fresh vreg. -/
inductive CastResult
  | nullReg
  | same
  | constReg (value : Int) (vt : VRegTypeM)
  | castOp (vt : VRegTypeM)
deriving DecidableEq, Repr

def gen_cast (vreg : CgVReg) (dst : CType) : CastResult :=
  match dst.kind with
  | .TY_VOID => .nullReg
  | .TY_STRUCT => .same
  | _ =>
    if vreg.flagConst then
      .constReg (cast_const_value vreg.fixnum vreg.vt.size dst) (to_vtype dst)
    else
      let lu := if dst.kind = .TY_FIXNUM then dst.is_unsigned else dst.kind = .TY_PTR
      let ru := vreg.vt.unsig
      if dst.size = vreg.vt.size ∧ lu = ru ∧ (dst.kind = .TY_FLONUM) = vreg.vt.flonum then
        .same
      else
        .castOp (to_vtype dst)

/-- Spec-side two's-complement truncation: keep the low `dstSize*8` bits,
and when the destination is signed and the truncated value's sign bit is
set, extend with ones (i.e. subtract `2^(dstSize*8)`). -/
def trunc_twos_complement (value : Int) (dstSize : Nat) (signed : Bool) : Int :=
  let low := int_land value (((2 ^ (dstSize * 8) : Nat) : Int) - 1)
  if signed ∧ int_land low ((2 ^ (dstSize * 8 - 1) : Nat) : Int) ≠ 0 then
    low - ((2 ^ (dstSize * 8) : Nat) : Int)
  else low

/-! ### Comparison lowering, from gen_compare_expr (codegen_expr.c:63) -/

inductive ConditionKind
  | COND_NONE
  | COND_ANY
  | COND_EQ
  | COND_NE
  | COND_LT
  | COND_LE
  | COND_GE
  | COND_GT
deriving DecidableEq, Repr

/-- `(uint64_t)x` for an `int64_t` payload: reduce modulo `2^64`. -/
def to_u64 (x : Int) : Int := x.emod ((2 ^ 64 : Nat) : Int)

/-- The constant-folding switch of `gen_compare_expr` (codegen_expr.c:92-109):
one case per `cond | flag` combination; the `COND_UNSIGNED` variants cast
both payloads to `uint64_t` first.  `COND_NONE`/`COND_ANY` return `cond`
unchanged.  The flonum flag cannot reach here (const vregs are never
flonum, codegen_expr.c:88-91). -/
def const_fold_cond (cond : ConditionKind) (isUnsigned : Bool) (l r : Int) :
    ConditionKind :=
  match cond, isUnsigned with
  | .COND_NONE, _ => cond
  | .COND_ANY, _ => cond
  | .COND_EQ, false => if l = r then .COND_ANY else .COND_NONE
  | .COND_NE, false => if l ≠ r then .COND_ANY else .COND_NONE
  | .COND_LT, false => if l < r then .COND_ANY else .COND_NONE
  | .COND_LE, false => if l ≤ r then .COND_ANY else .COND_NONE
  | .COND_GE, false => if l ≥ r then .COND_ANY else .COND_NONE
  | .COND_GT, false => if l > r then .COND_ANY else .COND_NONE
  | .COND_EQ, true => if to_u64 l = to_u64 r then .COND_ANY else .COND_NONE
  | .COND_NE, true => if to_u64 l ≠ to_u64 r then .COND_ANY else .COND_NONE
  | .COND_LT, true => if to_u64 l < to_u64 r then .COND_ANY else .COND_NONE
  | .COND_LE, true => if to_u64 l ≤ to_u64 r then .COND_ANY else .COND_NONE
  | .COND_GE, true => if to_u64 l ≥ to_u64 r then .COND_ANY else .COND_NONE
  | .COND_GT, true => if to_u64 l > to_u64 r then .COND_ANY else .COND_NONE

/-- The `flag` computation of `gen_compare_expr` (codegen_expr.c:76-81):
unsigned comparison for unsigned fixnum and pointer operand types. -/
def compare_flag_unsigned (lhsType : CType) : Bool :=
  (lhsType.kind = .TY_FIXNUM ∧ lhsType.is_unsigned) ∨ lhsType.kind = .TY_PTR

/-- Outcome of `gen_compare_expr` after both operands are generated:
the returned condition (`cond | flag` encoded as a kind plus the two flag
bits) and whether `new_ir_cmp` was emitted. -/
structure CompareResult where
  cond : ConditionKind
  unsignedFlag : Bool
  flonumFlag : Bool
  emitted_cmp : Bool
deriving DecidableEq, Repr

/-- `gen_compare_expr` from the point where both operand vregs are known
(codegen_expr.c:87-121): if both are constant the comparison is folded and
no compare op is emitted, otherwise `new_ir_cmp` is emitted and
`cond | flag` returned. -/
def gen_compare_vregs (cond : ConditionKind) (flagU flagF : Bool)
    (lhs rhs : CgVReg) : CompareResult :=
  if lhs.flagConst ∧ rhs.flagConst then
    { cond := const_fold_cond cond flagU lhs.fixnum rhs.fixnum,
      unsignedFlag := false, flonumFlag := false, emitted_cmp := false }
  else
    { cond := cond, unsignedFlag := flagU, flonumFlag := flagF, emitted_cmp := true }

/-- Spec-side reading of the claim: the comparison holds on the two constant
payloads, unsigned when the operand type is unsigned or a pointer. -/
def cmp_holds (cond : ConditionKind) (isUnsigned : Bool) (l r : Int) : Bool :=
  let a := if isUnsigned then to_u64 l else l
  let b := if isUnsigned then to_u64 r else r
  match cond with
  | .COND_EQ => a = b
  | .COND_NE => a ≠ b
  | .COND_LT => a < b
  | .COND_LE => a ≤ b
  | .COND_GE => a ≥ b
  | .COND_GT => a > b
  | _ => false

/-! ### Function-argument simplification, from simplify_funarg
(codegen_expr.c:337) and gen_expr_as_tmpvar (codegen_expr.c:322)

Expressions carry only the structure `simplify_funarg`41 dispatches on;
payloads it never looks at (literal values, member infos, statement bodies)
are dropped or kept as opaque data.  `EX_COMPLIT` carries the name of its
backing variable (`expr->complit.var`, itself an `EX_VAR`). -/

inductive CExpr
  | EX_FIXNUM (v : Int)
  | EX_FLONUM
  | EX_STR
  | EX_VAR (name : Nat)
  | EX_ADD (lhs rhs : CExpr)
  | EX_SUB (lhs rhs : CExpr)
  | EX_MUL (lhs rhs : CExpr)
  | EX_DIV (lhs rhs : CExpr)
  | EX_MOD (lhs rhs : CExpr)
  | EX_BITAND (lhs rhs : CExpr)
  | EX_BITOR (lhs rhs : CExpr)
  | EX_BITXOR (lhs rhs : CExpr)
  | EX_LSHIFT (lhs rhs : CExpr)
  | EX_RSHIFT (lhs rhs : CExpr)
  | EX_EQ (lhs rhs : CExpr)
  | EX_NE (lhs rhs : CExpr)
  | EX_LT (lhs rhs : CExpr)
  | EX_LE (lhs rhs : CExpr)
  | EX_GE (lhs rhs : CExpr)
  | EX_GT (lhs rhs : CExpr)
  | EX_LOGAND (lhs rhs : CExpr)
  | EX_LOGIOR (lhs rhs : CExpr)
  | EX_ASSIGN (lhs rhs : CExpr)
  | EX_COMMA (lhs rhs : CExpr)
  | EX_TERNARY (cond tval fval : CExpr)
  | EX_PREINC (sub : CExpr)
  | EX_PREDEC (sub : CExpr)
  | EX_POSTINC (sub : CExpr)
  | EX_POSTDEC (sub : CExpr)
  | EX_POS (sub : CExpr)
  | EX_NEG (sub : CExpr)
  | EX_BITNOT (sub : CExpr)
  | EX_REF (sub : CExpr)
  | EX_DEREF (sub : CExpr)
  | EX_CAST (sub : CExpr)
  | EX_MEMBER (target : CExpr)
  | EX_FUNCALL (func : CExpr) (args : List CExpr)
  | EX_BLOCK
  | EX_COMPLIT (varname : Nat)

/-- `gen_expr_as_tmpvar` (codegen_expr.c:322): evaluate the argument, store
it into a fresh temporary local (`alloc_label` modelled as a counter) and
return a variable reference to that temporary. -/
def gen_expr_as_tmpvar (n : Nat) (_arg : CExpr) : CExpr × Nat :=
  (.EX_VAR n, n + 1)

/-- `simplify_funarg` (codegen_expr.c:337), threading the fresh-label
counter; `x64` reflects `#if defined(__x86_64__)` around the MUL/DIV case. -/
def simplify_funarg (x64 : Bool) (n : Nat) : CExpr → CExpr × Nat
  | .EX_PREINC s => gen_expr_as_tmpvar n (.EX_PREINC s)
  | .EX_PREDEC s => gen_expr_as_tmpvar n (.EX_PREDEC s)
  | .EX_POSTINC s => gen_expr_as_tmpvar n (.EX_POSTINC s)
  | .EX_POSTDEC s => gen_expr_as_tmpvar n (.EX_POSTDEC s)
  | .EX_ASSIGN l r => gen_expr_as_tmpvar n (.EX_ASSIGN l r)
  | .EX_TERNARY c t f => gen_expr_as_tmpvar n (.EX_TERNARY c t f)
  | .EX_FUNCALL f args => gen_expr_as_tmpvar n (.EX_FUNCALL f args)
  | .EX_BLOCK => gen_expr_as_tmpvar n .EX_BLOCK
  | .EX_LOGAND l r => gen_expr_as_tmpvar n (.EX_LOGAND l r)
  | .EX_LOGIOR l r => gen_expr_as_tmpvar n (.EX_LOGIOR l r)
  | .EX_COMPLIT v => (.EX_VAR v, n)
  | .EX_COMMA l r => simplify_funarg x64 n r
  | .EX_MUL l r =>
    if x64 then gen_expr_as_tmpvar n (.EX_MUL l r)
    else
      let (l2, n1) := simplify_funarg x64 n l
      let (r2, n2) := simplify_funarg x64 n1 r
      (.EX_MUL l2 r2, n2)
  | .EX_DIV l r =>
    if x64 then gen_expr_as_tmpvar n (.EX_DIV l r)
    else
      let (l2, n1) := simplify_funarg x64 n l
      let (r2, n2) := simplify_funarg x64 n1 r
      (.EX_DIV l2 r2, n2)
  | .EX_ADD l r =>
    let (l2, n1) := simplify_funarg x64 n l
    let (r2, n2) := simplify_funarg x64 n1 r
    (.EX_ADD l2 r2, n2)
  | .EX_SUB l r =>
    let (l2, n1) := simplify_funarg x64 n l
    let (r2, n2) := simplify_funarg x64 n1 r
    (.EX_SUB l2 r2, n2)
  | .EX_MOD l r =>
    let (l2, n1) := simplify_funarg x64 n l
    let (r2, n2) := simplify_funarg x64 n1 r
    (.EX_MOD l2 r2, n2)
  | .EX_BITAND l r =>
    let (l2, n1) := simplify_funarg x64 n l
    let (r2, n2) := simplify_funarg x64 n1 r
    (.EX_BITAND l2 r2, n2)
  | .EX_BITOR l r =>
    let (l2, n1) := simplify_funarg x64 n l
    let (r2, n2) := simplify_funarg x64 n1 r
    (.EX_BITOR l2 r2, n2)
  | .EX_BITXOR l r =>
    let (l2, n1) := simplify_funarg x64 n l
    let (r2, n2) := simplify_funarg x64 n1 r
    (.EX_BITXOR l2 r2, n2)
  | .EX_LSHIFT l r =>
    let (l2, n1) := simplify_funarg x64 n l
    let (r2, n2) := simplify_funarg x64 n1 r
    (.EX_LSHIFT l2 r2, n2)
  | .EX_RSHIFT l r =>
    let (l2, n1) := simplify_funarg x64 n l
    let (r2, n2) := simplify_funarg x64 n1 r
    (.EX_RSHIFT l2 r2, n2)
  | .EX_EQ l r =>
    let (l2, n1) := simplify_funarg x64 n l
    let (r2, n2) := simplify_funarg x64 n1 r
    (.EX_EQ l2 r2, n2)
  | .EX_NE l r =>
    let (l2, n1) := simplify_funarg x64 n l
    let (r2, n2) := simplify_funarg x64 n1 r
    (.EX_NE l2 r2, n2)
  | .EX_LT l r =>
    let (l2, n1) := simplify_funarg x64 n l
    let (r2, n2) := simplify_funarg x64 n1 r
    (.EX_LT l2 r2, n2)
  | .EX_LE l r =>
    let (l2, n1) := simplify_funarg x64 n l
    let (r2, n2) := simplify_funarg x64 n1 r
    (.EX_LE l2 r2, n2)
  | .EX_GE l r =>
    let (l2, n1) := simplify_funarg x64 n l
    let (r2, n2) := simplify_funarg x64 n1 r
    (.EX_GE l2 r2, n2)
  | .EX_GT l r =>
    let (l2, n1) := simplify_funarg x64 n l
    let (r2, n2) := simplify_funarg x64 n1 r
    (.EX_GT l2 r2, n2)
  | .EX_POS s => let (s2, n1) := simplify_funarg x64 n s; (.EX_POS s2, n1)
  | .EX_NEG s => let (s2, n1) := simplify_funarg x64 n s; (.EX_NEG s2, n1)
  | .EX_BITNOT s => let (s2, n1) := simplify_funarg x64 n s; (.EX_BITNOT s2, n1)
  | .EX_REF s => let (s2, n1) := simplify_funarg x64 n s; (.EX_REF s2, n1)
  | .EX_DEREF s => let (s2, n1) := simplify_funarg x64 n s; (.EX_DEREF s2, n1)
  | .EX_CAST s => let (s2, n1) := simplify_funarg x64 n s; (.EX_CAST s2, n1)
  | .EX_MEMBER t => let (t2, n1) := simplify_funarg x64 n t; (.EX_MEMBER t2, n1)
  | .EX_FIXNUM v => (.EX_FIXNUM v, n)
  | .EX_FLONUM => (.EX_FLONUM, n)
  | .EX_STR => (.EX_STR, n)
  | .EX_VAR name => (.EX_VAR name, n)

/-- The argument loop of `gen_funcall` (codegen_expr.c:428-431):
`args->data[i] = simplify_funarg(args->data[i])` in order. -/
def simplify_funargs (x64 : Bool) (n : Nat) : List CExpr → List CExpr × Nat
  | [] => ([], n)
  | a :: rest =>
    let (a2, n1) := simplify_funarg x64 n a
    let (rest2, n2) := simplify_funargs x64 n1 rest
    (a2 :: rest2, n2)

/-! ### WebAssembly module assembly, from emit_wasm (wcc.c:248-311)

A `DataStorage` is a byte list; the per-section buffers (types, imports,
functions, globals, exports) arrive already assembled by the earlier part
of `emit_wasm`, and the combining code below is embedded operation by
operation. -/

def SEC_TYPE : Nat := 1
def SEC_IMPORT : Nat := 2
def SEC_FUNC : Nat := 3
def SEC_GLOBAL : Nat := 6
def SEC_EXPORT : Nat := 7
def SEC_CODE : Nat := 10

def data_push (d : List Nat) (b : Nat) : List Nat := d ++ [b]

def data_append (d : List Nat) (bs : List Nat) : List Nat := d ++ bs

/-- `data_concat(dst, src)` appends the whole of `src`. -/
def data_concat (d : List Nat) (bs : List Nat) : List Nat := d ++ bs

/-- `data_insert(data, pos, buf, len)`: splice bytes in at `pos`. -/
def data_insert (d : List Nat) (pos : Nat) (bs : List Nat) : List Nat :=
  d.take pos ++ bs ++ d.drop pos

/-- `emit_uleb128(data, pos, val)` (gen_wasm.c:45): encode and insert at `pos`. -/
def emit_uleb128 (d : List Nat) (pos : Nat) (val : Nat) : List Nat :=
  data_insert d pos (uleb128_bytes val)

/-- Modelled from the spec: `emit_wasm_header` (not under src/) writes the
standard preamble, magic `00 61 73 6d` then version `01 00 00 00`. -/
def wasm_header : List Nat := [0x00, 0x61, 0x73, 0x6d, 0x01, 0x00, 0x00, 0x00]

/-- The section-combining tail of `emit_wasm` (wcc.c:248-311): bytes written
to the output file, given the already-built per-section buffers, the import
and global counts, the function count and the per-function code buffers. -/
def emit_wasm_bytes (types imports functions globals exports : List Nat)
    (imports_count globals_count function_count : Nat)
    (bodies : List (List Nat)) : List Nat :=
  let sections : List Nat := []
  let sections := data_push sections SEC_TYPE
  let sections := data_concat sections types
  let sections :=
    if imports_count > 0 then data_append (data_push sections SEC_IMPORT) imports
    else sections
  let sections := data_append (data_push sections SEC_FUNC) functions
  let sections :=
    if globals_count > 0 then data_append (data_push sections SEC_GLOBAL) globals
    else sections
  let sections := data_append (data_push sections SEC_EXPORT) exports
  let codesec : List Nat := []
  let codesec := data_push codesec SEC_CODE
  let size_pos := codesec.length
  let total_code_size := (bodies.map List.length).sum
  let codesec := emit_uleb128 codesec codesec.length function_count
  let codesec := emit_uleb128 codesec size_pos
    ((codesec.length - size_pos) + total_code_size)
  wasm_header ++ sections ++ codesec ++ bodies.flatten

/-! ### The wcc driver, from main (wcc.c:334-406)

Arguments are byte strings (lists of characters).  The stages after option
processing (lexing/parsing, AST traversal, code generation, file opening)
live outside the embedded code and are abstracted by two oracles; per the
spec every diagnostic goes through `error()`, which (modelled from the
spec: "Exit code 0 on success, 1 on any diagnostic"; util.c is not under
src/) prints the message and exits 1. -/

/-- `starts_with(str, p)` from util. -/
def starts_with : List Char → List Char → Bool
  | _, [] => true
  | [], _ :: _ => false
  | c :: cs, p :: ps => c = p && starts_with cs ps

/-- The comma-splitting loop of the `-e` option (wcc.c:350-358): repeatedly
`strchr(s, ',')` and collect the pieces (empty names included). -/
def split_commas : List Char → List (List Char)
  | [] => [[]]
  | c :: rest =>
    if c = ',' then [] :: split_commas rest
    else
      match split_commas rest with
      | [] => [[c]]
      | g :: gs => (c :: g) :: gs

inductive ScanResult
  | unknown_option
  | ok (exports : Option (List (List Char)))
deriving DecidableEq

/-- The option loop of `main` (wcc.c:341-365): scan leading `-` arguments;
`-oOUT` sets the output name, `-eNAMES` (with a nonempty suffix) replaces
the export list, `--verbose` sets a flag, anything else is an unknown
option (exit 1); the first non-dash argument stops the loop. -/
def scan_args (args : List (List Char))
    (exports : Option (List (List Char))) : ScanResult :=
  match args with
  | [] => .ok exports
  | arg :: rest =>
    match arg with
    | [] => .ok exports
    | c :: _ =>
      if c ≠ '-' then .ok exports
      else if starts_with arg ['-', 'o'] then scan_args rest exports
      else if starts_with arg ['-', 'e'] ∧ 2 < arg.length then
        scan_args rest (some (split_commas (arg.drop 2)))
      else if arg = ['-', '-', 'v', 'e', 'r', 'b', 'o', 's', 'e'] then
        scan_args rest exports
      else .unknown_option

inductive DiagKind
  | unknownOption
  | noExports
  | pipelineErr
  | outputErr
deriving DecidableEq, Repr

structure MainOutcome where
  exit_code : Nat
  module_written : Bool
  diag : Option DiagKind
deriving DecidableEq, Repr

/-- `main` (wcc.c:334-406): process options; without exports report
`no exports (require -e<xxx>)` and exit 1; otherwise compile (any
diagnostic in the pipeline exits 1 via `error()`), open the output
(failure exits 1), emit the module and return 0. -/
def wcc_main (args : List (List Char)) (pipeline_ok output_ok : Bool) :
    MainOutcome :=
  match scan_args args none with
  | .unknown_option => ⟨1, false, some .unknownOption⟩
  | .ok none => ⟨1, false, some .noExports⟩
  | .ok (some _exports) =>
    if pipeline_ok = false then ⟨1, false, some .pipelineErr⟩
    else if output_ok = false then ⟨1, false, some .outputErr⟩
    else ⟨0, true, none⟩

/-! ### Linear-scan register allocation, from regalloc.c

`LiveInterval` and the vreg flags mirror regalloc.h (declarations only, the
header is not under src/; field and flag names follow the .c file's usage).
`endp` stands for the source's `end` field (a Lean keyword).  Physical
register sets use `Nat` bitmasks, `1UL << r` being `2 ^ r`. -/

inductive LIState
  | LI_NORMAL
  | LI_CONST
  | LI_SPILL
deriving DecidableEq, Repr

structure LiveInterval where
  virt : Nat
  start : Int
  endp : Int
  phys : Int
  state : LIState
  occupied_reg_bit : Nat
deriving DecidableEq, Repr

/-- The fields of `VReg` that regalloc.c reads: the `VRTF_FLONUM` bit of the
value type, the `VRF_PARAM` flag, the register-parameter hint and the
physical index recorded when the vreg was spilled in an earlier round. -/
structure RVReg where
  flonum : Bool
  flagParam : Bool
  flagConst : Bool
  flagSpilled : Bool
  reg_param_index : Int
  phys : Int
deriving DecidableEq, Repr

structure RAConfig where
  phys_max : Nat
  phys_temporary_count : Nat
  fphys_max : Nat
  fphys_temporary_count : Nat
  reg_param_mapping : Nat → Int

structure PhysicalRegisterSet where
  active : List LiveInterval
  phys_max : Nat
  phys_temporary : Nat
  using_bits : Nat
  used_bits : Nat

/-- `insert_active` (regalloc.c:46): insert before the first active interval
whose end is later, keeping the list sorted by interval end. -/
def insert_active (active : List LiveInterval) (li : LiveInterval) :
    List LiveInterval :=
  match active with
  | [] => [li]
  | p :: rest => if li.endp < p.endp then li :: p :: rest else p :: insert_active rest li

/-- The scan of `expire_old_intervals` (regalloc.c:101): pop leading active
intervals whose end is at or before `start`, clearing their bits
(`using_bits &= ~(1UL << phys)`); returns (expired, remaining, using_bits). -/
def expire_scan (active : List LiveInterval) (start : Int) (using_bits : Nat) :
    List LiveInterval × List LiveInterval × Nat :=
  match active with
  | [] => ([], [], using_bits)
  | li :: rest =>
    if li.endp > start then ([], li :: rest, using_bits)
    else
      let (ex, rem, ub) := expire_scan rest start (Nat.ldiff using_bits (2 ^ li.phys.toNat))
      (li :: ex, rem, ub)

def expire_old_intervals (p : PhysicalRegisterSet) (start : Int) :
    PhysicalRegisterSet × List LiveInterval :=
  let (ex, rem, ub) := expire_scan p.active start p.using_bits
  ({ p with active := rem, using_bits := ub }, ex)

/-- `split_at_interval` (regalloc.c:77): the spill candidate is the last
active interval (the one with the farthest end).  If it ends after `li`,
it is evicted — `li` inherits its physical register and is inserted among
the remaining actives, the candidate gets the sentinel `ra->phys_max` and
state `LI_SPILL`; otherwise `li` itself is spilled.  Returns the new active
list and the interval records that leave the active set.  (On an empty
active list the C code fails its `assert(active_count > 0)`; the model
spills `li`.) -/
def split_at_interval (ra_phys_max : Nat) (active : List LiveInterval)
    (li : LiveInterval) : List LiveInterval × List LiveInterval :=
  match active.getLast? with
  | none => (active, [{ li with phys := ra_phys_max, state := .LI_SPILL }])
  | some spill =>
    if spill.endp > li.endp then
      let li2 := { li with phys := spill.phys }
      let spill2 := { spill with phys := ra_phys_max, state := .LI_SPILL }
      (insert_active active.dropLast li2, [spill2])
    else
      (active, [{ li with phys := ra_phys_max, state := .LI_SPILL }])

/-- The register search loop of `linear_scan_register_allocation`
(regalloc.c:288-294): first free register in `[j, phys_max)`, else -1. -/
def find_free_loop (occupied : Nat) (j phys_max : Nat) : Int :=
  if j < phys_max then
    if occupied &&& 2 ^ j = 0 then (j : Int) else find_free_loop occupied (j + 1) phys_max
  else -1
termination_by phys_max - j

/-- The register choice of `linear_scan_register_allocation`
(regalloc.c:269-294): take the mapped parameter-hint register when it is
free, otherwise search from `start_index` (the temporaries when a hint
existed but was occupied); -1 when nothing is free. -/
def choose_regno (ra : RAConfig) (prs : PhysicalRegisterSet) (vreg : RVReg)
    (occupied : Nat) : Int :=
  let ip0 := vreg.reg_param_index
  let ip : Int :=
    if 0 ≤ ip0 then (if vreg.flonum then ip0 else ra.reg_param_mapping ip0.toNat)
    else ip0
  let hint_free : Bool := 0 ≤ ip ∧ occupied &&& 2 ^ ip.toNat = 0
  let start_index : Nat := if 0 ≤ ip0 ∧ ¬hint_free then prs.phys_temporary else 0
  let regno : Int := if 0 ≤ ip0 ∧ hint_free then ip else -1
  if regno < 0 then find_free_loop occupied start_index prs.phys_max else regno

/-- The per-interval body of `linear_scan_register_allocation`
(regalloc.c:266-304) acting on the chosen register set: register choice,
assignment into the active list, or the split fallback.  Returns the
updated set and the interval records finalized by this step. -/
def reg_select (ra : RAConfig) (prs : PhysicalRegisterSet) (vreg : RVReg)
    (li : LiveInterval) : PhysicalRegisterSet × List LiveInterval :=
  let occupied := prs.using_bits ||| li.occupied_reg_bit
  let regno := choose_regno ra prs vreg occupied
  if 0 ≤ regno then
    let li2 := { li with phys := regno }
    let prs := { prs with using_bits := prs.using_bits ||| 2 ^ regno.toNat,
                          active := insert_active prs.active li2 }
    ({ prs with used_bits := prs.used_bits ||| prs.using_bits }, [])
  else
    let (active2, fin) := split_at_interval ra.phys_max prs.active li
    ({ prs with active := active2,
                used_bits := prs.used_bits ||| prs.using_bits }, fin)

structure LSState where
  iregset : PhysicalRegisterSet
  fregset : PhysicalRegisterSet
  finished : List LiveInterval

/-- One iteration of the main loop of `linear_scan_register_allocation`
(regalloc.c:257-305): skip intervals without a vreg or not in `LI_NORMAL`
state, expire both register sets at the interval start, then allocate in
the class-selecting register set.  Finalized interval records (skipped,
expired, spilled, evicted) accumulate in `finished`. -/
def linear_scan_step (ra : RAConfig) (vregs : List (Option RVReg))
    (st : LSState) (li : LiveInterval) : LSState :=
  match vregs.getD li.virt none with
  | none => { st with finished := st.finished ++ [li] }
  | some vreg =>
    if li.state ≠ .LI_NORMAL then { st with finished := st.finished ++ [li] }
    else
      let (iregset1, exI) := expire_old_intervals st.iregset li.start
      let (fregset1, exF) := expire_old_intervals st.fregset li.start
      if vreg.flonum then
        let (fregset2, fin) := reg_select ra fregset1 vreg li
        { iregset := iregset1, fregset := fregset2,
          finished := st.finished ++ exI ++ exF ++ fin }
      else
        let (iregset2, fin) := reg_select ra iregset1 vreg li
        { iregset := iregset2, fregset := fregset1,
          finished := st.finished ++ exI ++ exF ++ fin }

def initial_ls_state (ra : RAConfig) : LSState :=
  { iregset := ⟨[], ra.phys_max, ra.phys_temporary_count, 0, 0⟩,
    fregset := ⟨[], ra.fphys_max, ra.fphys_temporary_count, 0, 0⟩,
    finished := [] }

/-- `linear_scan_register_allocation` (regalloc.c:238): fold the per-interval
step over the sorted intervals. -/
def linear_scan_register_allocation (ra : RAConfig) (vregs : List (Option RVReg))
    (sorted_intervals : List LiveInterval) : LSState :=
  sorted_intervals.foldl (linear_scan_step ra vregs) (initial_ls_state ra)

/-- All interval records after allocation: the finalized ones plus those
still active in either class at the end. -/
def alloc_output (st : LSState) : List LiveInterval :=
  st.finished ++ st.iregset.active ++ st.fregset.active

/-- The interval preparation loop of `alloc_physical_registers`
(regalloc.c:416-431): constant vregs get `LI_CONST`; vregs spilled in an
earlier round get `LI_SPILL` and keep their recorded phys. -/
def prep_interval (vregs : List (Option RVReg)) (li : LiveInterval) : LiveInterval :=
  match vregs.getD li.virt none with
  | none => li
  | some v =>
    if v.flagConst then { li with state := .LI_CONST }
    else if v.flagSpilled then { li with state := .LI_SPILL, phys := v.phys }
    else li

/-- Strict live-range overlap: both intervals are live at a common point. -/
def overlaps (a b : LiveInterval) : Prop := a.start < b.endp ∧ b.start < a.endp

/-- An interval that came out of allocation holding a physical register. -/
def li_assigned (li : LiveInterval) : Prop := li.state = .LI_NORMAL ∧ 0 ≤ li.phys

/-! ### The spill-insertion fixpoint of alloc_physical_registers
(regalloc.c:328-467)

IR ops carry only what `insert_load_store_spilled_irs` inspects: the kind
and the three vreg slots (vregs by index).  The analysis part of each round
(liveness, sorting, forbid bits, the linear scan itself) only matters here
through the set of vregs it marks `LI_SPILL`, abstracted as `choose`. -/

inductive IRKind
  | IR_LOAD
  | IR_STORE
  | IR_MOV
  | IR_ADD
  | IR_SUB
  | IR_MUL
  | IR_DIV
  | IR_MOD
  | IR_BITAND
  | IR_BITOR
  | IR_BITXOR
  | IR_LSHIFT
  | IR_RSHIFT
  | IR_CMP
  | IR_NEG
  | IR_BITNOT
  | IR_COND
  | IR_JMP
  | IR_TJMP
  | IR_PUSHARG
  | IR_CALL
  | IR_RESULT
  | IR_PRECALL
  | IR_ASM
  | IR_SUBSP
  | IR_CAST
  | IR_BOFS
  | IR_IOFS
  | IR_SOFS
  | IR_LOAD_SPILLED
  | IR_STORE_SPILLED
deriving DecidableEq, Repr

structure IRM where
  kind : IRKind
  dst : Option Nat
  opr1 : Option Nat
  opr2 : Option Nat
deriving DecidableEq, Repr

/-- The `flag` switch of `insert_load_store_spilled_irs` (regalloc.c:336-381):
bit 1 checks `opr1`, bit 2 `opr2`, bit 4 `dst`.  `IR_SUBSP`/`IR_CAST` use 5,
the address ops 4, everything else 7; the spill-access ops themselves are
skipped by `continue` before this flag is used. -/
def ir_spill_flag : IRKind → Nat
  | .IR_SUBSP | .IR_CAST => 5
  | .IR_BOFS | .IR_IOFS | .IR_SOFS => 4
  | _ => 7

/-- The vreg flags the insertion pass reads. -/
structure SpillVReg where
  flagConst : Bool
  flagSpilled : Bool
  flagNoSpill : Bool
deriving DecidableEq, Repr

def no_vreg : SpillVReg := ⟨false, false, false⟩

/-- The operand test `!(v->flag & VRF_CONST) && (v->flag & VRF_SPILLED)`
(regalloc.c:383-399): the id when the slot holds a spilled non-constant
vreg, else `none`. -/
def spilled_operand (vregs : List SpillVReg) (ov : Option Nat) : Option Nat :=
  match ov with
  | none => none
  | some id =>
    if (vregs.getD id no_vreg).flagConst = false ∧
        (vregs.getD id no_vreg).flagSpilled = true then some id else none

/-- `insert_tmp_reg` (regalloc.c:310): spawn a `VRF_NO_SPILL` temporary
(`reg_alloc_spawn`, regalloc.c:30, appends to `ra->vregs`); when an operand
slot matches the spilled vreg, produce a load-spilled op and redirect the
matching operand slots to the temporary; when the destination matches,
produce a store-spilled op and redirect the destination. -/
def insert_tmp_reg (vregs : List SpillVReg) (ir : IRM) (spilled : Nat) :
    List SpillVReg × Option IRM × IRM × Option IRM :=
  let tmp := vregs.length
  let vregs2 := vregs ++ [⟨false, false, true⟩]
  let ld : Option IRM :=
    if ir.opr1 = some spilled ∨ ir.opr2 = some spilled then
      some ⟨.IR_LOAD_SPILLED, some tmp, some spilled, none⟩
    else none
  let ir2 :=
    if ir.opr1 = some spilled ∨ ir.opr2 = some spilled then
      { ir with opr1 := if ir.opr1 = some spilled then some tmp else ir.opr1,
                opr2 := if ir.opr2 = some spilled then some tmp else ir.opr2 }
    else ir
  if ir2.dst = some spilled then
    (vregs2, ld, { ir2 with dst := some tmp },
     some ⟨.IR_STORE_SPILLED, some spilled, some tmp, none⟩)
  else
    (vregs2, ld, ir2, none)

/-- Placement of the ops produced by one `insert_tmp_reg` call, following
the index arithmetic of the C caller: a load goes in front of the op
unless a store was already inserted after it (then the load lands between
the op and that store); a store goes after everything. -/
def place_tmp (vregs : List SpillVReg) (before after : List IRM) (ir : IRM)
    (spilled : Nat) : List SpillVReg × List IRM × List IRM × IRM :=
  let r := insert_tmp_reg vregs ir spilled
  let before2 :=
    match r.2.1 with
    | none => before
    | some l => if after = [] then before ++ [l] else before
  let after2 :=
    match r.2.1 with
    | none => after
    | some l => if after = [] then after else l :: after
  let after3 :=
    match r.2.2.2 with
    | none => after2
    | some stOp => after2 ++ [stOp]
  (r.1, before2, after3, r.2.2.1)

/-- One flag-guarded check of `insert_load_store_spilled_irs`
(regalloc.c:336-381): when the bit is set and the inspected slot holds a
spilled non-constant vreg, spawn a temporary via `insert_tmp_reg` and count
one insertion; the state is the vreg pool, the ops placed before and after
the op, the (rewritten) op and the insertion count. -/
def spill_check (vregs : List SpillVReg) (cond : Bool) (slot : Option Nat)
    (b a : List IRM) (ir : IRM) (n : Nat) :
    List SpillVReg × List IRM × List IRM × IRM × Nat :=
  if cond then
    match spilled_operand vregs slot with
    | some id =>
      let r := place_tmp vregs b a ir id
      (r.1, r.2.1, r.2.2.1, r.2.2.2, n + 1)
    | none => (vregs, b, a, ir, n)
  else (vregs, b, a, ir, n)

/-- Processing of one op by `insert_load_store_spilled_irs`
(regalloc.c:333-399): the three flag-guarded checks in order (bit 1 on
`opr1`, bit 2 on `opr2`, bit 4 on `dst`); the spill-access ops themselves
are skipped by `continue`. -/
def process_ir (vregs0 : List SpillVReg) (ir0 : IRM) :
    List SpillVReg × List IRM × Nat :=
  if ir0.kind = .IR_LOAD_SPILLED ∨ ir0.kind = .IR_STORE_SPILLED then
    (vregs0, [ir0], 0)
  else
    let flag := ir_spill_flag ir0.kind
    let s1 := spill_check vregs0 (flag &&& 1 != 0) ir0.opr1 [] [] ir0 0
    let s2 := spill_check s1.1 (flag &&& 2 != 0) s1.2.2.2.1.opr2
      s1.2.1 s1.2.2.1 s1.2.2.2.1 s1.2.2.2.2
    let s3 := spill_check s2.1 (flag &&& 4 != 0) s2.2.2.2.1.dst
      s2.2.1 s2.2.2.1 s2.2.2.2.1 s2.2.2.2.2
    (s3.1, s3.2.1 ++ [s3.2.2.2.1] ++ s3.2.2.1, s3.2.2.2.2)

def insert_pass_irs (vregs : List SpillVReg) :
    List IRM → List SpillVReg × List IRM × Nat
  | [] => (vregs, [], 0)
  | ir :: rest =>
    let r1 := process_ir vregs ir
    let r2 := insert_pass_irs r1.1 rest
    (r2.1, r1.2.1 ++ r2.2.1, r1.2.2 + r2.2.2)

/-- `insert_load_store_spilled_irs` (regalloc.c:328) over all basic blocks;
returns the grown vreg pool, the rewritten blocks and the insertion count. -/
def insert_load_store_spilled_irs (vregs : List SpillVReg) :
    List (List IRM) → List SpillVReg × List (List IRM) × Nat
  | [] => (vregs, [], 0)
  | bb :: bbs =>
    let r1 := insert_pass_irs vregs bb
    let r2 := insert_load_store_spilled_irs r1.1 bbs
    (r2.1, r1.2.1 :: r2.2.1, r1.2.2 + r2.2.2)

/-- Modelled from the spec: `spill_vreg` (ir.c, not under src/) flags the
vreg spilled — "Spilled vregs receive a sentinel physical index and are
added to the function's frame layout"; only the flag matters here. -/
def spill_vreg (v : SpillVReg) : SpillVReg := { v with flagSpilled := true }

/-- The spill loop of `alloc_physical_registers` (regalloc.c:443-451):
apply `spill_vreg` to each chosen vreg, skipping the ones already flagged
(`if (vreg->flag & VRF_SPILLED) continue`). -/
def spill_vregs (vregs : List SpillVReg) (choice : List Nat) : List SpillVReg :=
  choice.foldl
    (fun vs i =>
      if h : i < vs.length then
        if (vs.get ⟨i, h⟩).flagSpilled then vs else vs.set i (spill_vreg (vs.get ⟨i, h⟩))
      else vs)
    vregs

structure AllocState where
  vregs : List SpillVReg
  bbs : List (List IRM)
deriving DecidableEq, Repr

/-- One round of the fixpoint loop of `alloc_physical_registers`
(regalloc.c:413-463): the analysis (liveness, sort, forbid bits, linear
scan) determines the `LI_SPILL` set, abstracted by `choose`; then the spill
loop and the insertion pass run.  Returns the new state and the insertion
count. -/
def alloc_round (choose : AllocState → List Nat) (st : AllocState) :
    AllocState × Nat :=
  let vregs1 := spill_vregs st.vregs (choose st)
  let r := insert_load_store_spilled_irs vregs1 st.bbs
  (⟨r.1, r.2.1⟩, r.2.2)

/-- The `for (;;)` loop of `alloc_physical_registers`: iterate rounds until
one inserts nothing; `none` when the fuel runs out first. -/
def alloc_iterate (choose : AllocState → List Nat) :
    Nat → AllocState → Option AllocState
  | 0, _ => none
  | fuel + 1, st =>
    let r := alloc_round choose st
    if r.2 = 0 then some r.1
    else alloc_iterate choose fuel r.1

/-- Vregs that are still candidates for spilling: not yet spilled and not
protected by `VRF_NO_SPILL`. -/
def spillable_count (vregs : List SpillVReg) : Nat :=
  (vregs.filter fun v => !v.flagSpilled && !v.flagNoSpill).length

/-- Weight of one vreg in `spillable_count`. -/
def spillWeight (v : SpillVReg) : Nat :=
  if !v.flagSpilled && !v.flagNoSpill then 1 else 0

/-- An op is clean when every slot its flag makes
`insert_load_store_spilled_irs` inspect holds no spilled non-constant vreg
(the spill-access ops are skipped outright). -/
def ir_clean (vregs : List SpillVReg) (ir : IRM) : Prop :=
  ir.kind = .IR_LOAD_SPILLED ∨ ir.kind = .IR_STORE_SPILLED ∨
  ((ir_spill_flag ir.kind &&& 1 ≠ 0 → spilled_operand vregs ir.opr1 = none) ∧
   (ir_spill_flag ir.kind &&& 2 ≠ 0 → spilled_operand vregs ir.opr2 = none) ∧
   (ir_spill_flag ir.kind &&& 4 ≠ 0 → spilled_operand vregs ir.dst = none))

def bbs_clean (vregs : List SpillVReg) (bbs : List (List IRM)) : Prop :=
  ∀ bb ∈ bbs, ∀ ir ∈ bb, ir_clean vregs ir

/-- How the vreg pool evolves across the fixpoint loop: it only grows, a
spilled vreg is frozen (never un-spilled, never re-processed), a no-spill
vreg is never spilled, and every new entry is a no-spill temporary. -/
def vreg_evolution (old new : List SpillVReg) : Prop :=
  old.length ≤ new.length ∧
  (∀ i, (old.getD i no_vreg).flagSpilled = true →
    new.getD i no_vreg = old.getD i no_vreg) ∧
  (∀ i, i < old.length → (old.getD i no_vreg).flagNoSpill = true →
    new.getD i no_vreg = old.getD i no_vreg) ∧
  (∀ i, old.length ≤ i → i < new.length →
    new.getD i no_vreg = ⟨false, false, true⟩)

/-! ### Statement vocabulary for the allocator invariants -/

/-- Two intervals belong to the same register class: both have vregs, with
equal `VRTF_FLONUM` bits. -/
def same_class (vregs : List (Option RVReg)) (p q : LiveInterval) : Prop :=
  ∃ vp vq, vregs.getD p.virt none = some vp ∧ vregs.getD q.virt none = some vq ∧
    vp.flonum = vq.flonum

/-- The claim's conflict freedom for one pair: two distinct vregs of the
same class whose intervals overlap do not hold the same physical register. -/
def no_conflict (vregs : List (Option RVReg)) (p q : LiveInterval) : Prop :=
  p.virt ≠ q.virt → same_class vregs p q → li_assigned p → li_assigned q →
    overlaps p q → p.phys ≠ q.phys

/-- The claim's trichotomy for one interval with a vreg: constant, spilled,
or assigned an in-range physical register of its class. -/
def li_trichotomy (vregs : List (Option RVReg)) (ra : RAConfig)
    (li : LiveInterval) : Prop :=
  ∀ v, vregs.getD li.virt none = some v →
    li.state = .LI_CONST ∨ li.state = .LI_SPILL ∨
    (li.state = .LI_NORMAL ∧ 0 ≤ li.phys ∧
      li.phys < ((if v.flonum then ra.fphys_max else ra.phys_max : Nat) : Int))

/-- Invariant of one physical register set during the scan. -/
def prs_inv (vregs : List (Option RVReg)) (flo : Bool) (classMax : Nat)
    (prs : PhysicalRegisterSet) (pos : Int) : Prop :=
  (∀ li ∈ prs.active,
    li.state = .LI_NORMAL ∧ 0 ≤ li.phys ∧ li.phys < (classMax : Int) ∧
    li.start ≤ pos ∧
    Nat.testBit prs.using_bits li.phys.toNat = true ∧
    (∃ v : RVReg, vregs.getD li.virt none = some v ∧ v.flonum = flo)) ∧
  prs.active.Pairwise (fun a b => a.phys ≠ b.phys)

/-- Finalized intervals that hold a register were expired: they end at or
before the current scan position. -/
def finished_inv (vregs : List (Option RVReg)) (fin : List LiveInterval)
    (pos : Int) : Prop :=
  ∀ li ∈ fin, li_assigned li → (∃ v, vregs.getD li.virt none = some v) →
    li.endp ≤ pos

/-- The full loop invariant of `linear_scan_register_allocation`. -/
def ls_inv (ra : RAConfig) (vregs : List (Option RVReg)) (st : LSState)
    (pos : Int) : Prop :=
  prs_inv vregs false ra.phys_max st.iregset pos ∧
  prs_inv vregs true ra.fphys_max st.fregset pos ∧
  st.iregset.phys_max = ra.phys_max ∧
  st.fregset.phys_max = ra.fphys_max ∧
  finished_inv vregs st.finished pos ∧
  (∀ p ∈ alloc_output st, ∀ q ∈ alloc_output st, no_conflict vregs p q) ∧
  (∀ li ∈ st.finished, li_trichotomy vregs ra li)

end Xcc

namespace Xcc

theorem decode_uleb128_roundtrip (v : Nat) :
    decode_uleb128 (uleb128_bytes v) = some v := by
  induction v using Nat.strong_induction_on with
  | _ v ih =>
    rw [uleb128_bytes]
    by_cases h : v < 128
    · simp [h, decode_uleb128, Nat.mod_eq_of_lt h]
    · rw [if_neg h]
      simp only [decode_uleb128]
      rw [if_neg (by omega : ¬ v % 128 + 128 < 128)]
      rw [ih (v / 128) (Nat.div_lt_self (by omega) (by norm_num))]
      simp only [Option.some.injEq]
      omega

theorem decode_leb128_roundtrip (v : Int) :
    decode_leb128 (leb128_bytes v) = some v := by
  suffices H : ∀ n : Nat, ∀ w : Int, w.natAbs = n → decode_leb128 (leb128_bytes w) = some w by
    exact H v.natAbs v rfl
  intro n
  induction n using Nat.strong_induction_on with
  | _ n ih =>
    intro w hw
    have h0 : (0 : Int) ≤ w.emod 128 := Int.emod_nonneg w (by norm_num)
    have h1 : w.emod 128 < 128 := Int.emod_lt_of_pos w (by norm_num)
    have h2 : 128 * w.ediv 128 + w.emod 128 = w := Int.ediv_add_emod w 128
    have htn : ((w.emod 128).toNat : Int) = w.emod 128 := Int.toNat_of_nonneg h0
    rw [leb128_bytes]
    by_cases h : w < 64 ∧ -64 ≤ w
    · rw [if_pos h]
      simp only [decode_leb128]
      rw [if_pos (by omega : (w.emod 128).toNat < 128)]
      by_cases hs : (w.emod 128).toNat < 64
      · rw [if_pos hs]
        congr 1
        omega
      · rw [if_neg hs]
        congr 1
        omega
    · rw [if_neg h]
      simp only [decode_leb128]
      rw [if_neg (by omega : ¬ (w.emod 128).toNat + 128 < 128)]
      rw [ih (w.ediv 128).natAbs (by omega) (w.ediv 128) rfl]
      simp only [Option.some.injEq]
      omega

/-- C1: the LEB128 encoding loops are inverted by the spec's decoders on the
full 64-bit ranges (in fact on all of `Nat` / `Int`), but the C functions
write the bytes into a 5-byte local buffer `unsigned char buf[5]`: the
encoding of `2^64 > v ≥ 2^35` (unsigned) and of `2^63 > v ≥ 2^34` (signed)
needs 6 or more bytes, so `emit_uleb128`/`emit_leb128` overflow the buffer
on those inputs, as witnessed here at `v = 2^35` and `v = 2^34`. -/
theorem C1_leb128_roundtrip_overflows_buffer :
    (∀ v : Nat, decode_uleb128 (uleb128_bytes v) = some v) ∧
    (∀ v : Int, decode_leb128 (leb128_bytes v) = some v) ∧
    (uleb128_bytes (2 ^ 35)).length = 6 ∧
    (leb128_bytes (2 ^ 34)).length = 6 := by
  refine ⟨decode_uleb128_roundtrip, decode_leb128_roundtrip, ?_, ?_⟩
  · simp [uleb128_bytes]
  · rw [leb128_bytes, if_neg (by decide)]
    rw [(by decide : ((2 : Int) ^ 34).ediv 128 = 2 ^ 27)]
    rw [leb128_bytes, if_neg (by decide)]
    rw [(by decide : ((2 : Int) ^ 27).ediv 128 = 2 ^ 20)]
    rw [leb128_bytes, if_neg (by decide)]
    rw [(by decide : ((2 : Int) ^ 20).ediv 128 = 2 ^ 13)]
    rw [leb128_bytes, if_neg (by decide)]
    rw [(by decide : ((2 : Int) ^ 13).ediv 128 = 2 ^ 6)]
    rw [leb128_bytes, if_neg (by decide)]
    rw [(by decide : ((2 : Int) ^ 6).ediv 128 = 0)]
    rw [leb128_bytes, if_pos (by decide)]
    rfl

/-- C9: `.comm label,count` switches the current section to bss, appends the
label and a bss record of the given size there regardless of the previously
active section, and the assembler stays in bss: no directive other than
`.text` and `.data` changes `current_section` away from bss, and while in
bss every content-producing directive leaves the code and data sections
untouched. -/
theorem C9_comm_directive (st : AsmState) (label count : Nat) :
    (handle_directive (.DT_COMM label count) st).current_section = .SEC_BSS ∧
    (handle_directive (.DT_COMM label count) st).sec_bss
      = st.sec_bss ++ [.IR_LABEL label, .IR_BSS count] ∧
    (handle_directive (.DT_COMM label count) st).sec_code = st.sec_code ∧
    (handle_directive (.DT_COMM label count) st).sec_data = st.sec_data ∧
    (∀ dir : AsmDirective, dir ≠ .DT_TEXT → dir ≠ .DT_DATA →
      ∀ st' : AsmState, st'.current_section = .SEC_BSS →
        (handle_directive dir st').current_section = .SEC_BSS) ∧
    (∀ dir : AsmDirective, ∀ st' : AsmState, st'.current_section = .SEC_BSS →
      (handle_directive dir st').sec_code = st'.sec_code ∧
      (handle_directive dir st').sec_data = st'.sec_data) := by
  refine ⟨rfl, rfl, rfl, rfl, ?_, ?_⟩
  · intro dir h1 h2 st' hcur
    cases dir <;> simp_all [handle_directive, AsmState.push_irs]
  · intro dir st' hcur
    cases dir <;> simp_all [handle_directive, AsmState.push_irs]

/-- C9 witness: concrete run of `.comm` from the data section, and a
subsequent `.ascii` staying in bss. -/
theorem C9_comm_directive_witness :
    (handle_directive (.DT_COMM 3 8) ⟨.SEC_DATA, [], [], []⟩).current_section
      = .SEC_BSS ∧
    (handle_directive (.DT_ASCII [65]) ⟨.SEC_BSS, [], [], []⟩).current_section
      = .SEC_BSS :=
  ⟨(C9_comm_directive ⟨.SEC_DATA, [], [], []⟩ 3 8).1,
   (C9_comm_directive ⟨.SEC_DATA, [], [], []⟩ 3 8).2.2.2.2.1 (.DT_ASCII [65])
     (by decide) (by decide) ⟨.SEC_BSS, [], [], []⟩ rfl⟩

/-- C10: for a constant vreg the truncating branch of `gen_cast` tests the
sign with C's `1 << (bit - 1)`, an `int`-width shift: for a 4-byte signed
destination the test pattern sign-extends to cover bits 31..63, so the
source value `2^32` (whose truncated sign bit, bit 31, is clear) is wrongly
treated as negative and the payload becomes `-(2^32)` instead of the two's
complement truncation `0`. -/
theorem C10_gen_cast_const_sign_test :
    gen_cast ⟨true, 4294967296, ⟨8, false, false⟩⟩ ⟨.TY_FIXNUM, 4, false⟩
      = .constReg (-4294967296) ⟨4, false, false⟩ ∧
    trunc_twos_complement 4294967296 4 true = 0 ∧
    cast_const_value 4294967296 8 ⟨.TY_FIXNUM, 4, false⟩
      ≠ trunc_twos_complement 4294967296 4 true := by
  refine ⟨?_, by decide, by decide⟩
  decide

/-- C6: when both operands of a comparison are constant vregs,
`gen_compare_expr` emits no compare op and returns `COND_ANY` exactly when
the comparison holds on the constant payloads — unsigned when the operand
type is an unsigned fixnum or a pointer, signed otherwise — and `COND_NONE`
otherwise. -/
theorem C6_gen_compare_const_fold (cond : ConditionKind) (lhsType : CType)
    (lhs rhs : CgVReg)
    (hc : cond ≠ .COND_NONE ∧ cond ≠ .COND_ANY)
    (hl : lhs.flagConst = true) (hr : rhs.flagConst = true) :
    (gen_compare_vregs cond (compare_flag_unsigned lhsType)
        (decide (lhsType.kind = .TY_FLONUM)) lhs rhs).emitted_cmp = false ∧
    ((gen_compare_vregs cond (compare_flag_unsigned lhsType)
        (decide (lhsType.kind = .TY_FLONUM)) lhs rhs).cond = .COND_ANY ↔
      cmp_holds cond (compare_flag_unsigned lhsType) lhs.fixnum rhs.fixnum = true) ∧
    ((gen_compare_vregs cond (compare_flag_unsigned lhsType)
        (decide (lhsType.kind = .TY_FLONUM)) lhs rhs).cond = .COND_ANY ∨
     (gen_compare_vregs cond (compare_flag_unsigned lhsType)
        (decide (lhsType.kind = .TY_FLONUM)) lhs rhs).cond = .COND_NONE) := by
  refine ⟨?_, ?_, ?_⟩
  · simp [gen_compare_vregs, hl, hr]
  · cases hcu : compare_flag_unsigned lhsType <;>
      cases cond <;>
        simp_all [gen_compare_vregs, const_fold_cond, cmp_holds]
  · cases hcu : compare_flag_unsigned lhsType <;>
      cases cond <;>
        simp_all [gen_compare_vregs, const_fold_cond, cmp_holds] <;> omega

/-- C6 witness: unsigned comparison of the constants `-1` (i.e. `2^64 - 1`
as `uint64_t`) and `1`. -/
theorem C6_gen_compare_const_fold_witness :
    (gen_compare_vregs .COND_GT (compare_flag_unsigned ⟨.TY_FIXNUM, 8, true⟩)
        (decide ((⟨.TY_FIXNUM, 8, true⟩ : CType).kind = .TY_FLONUM))
        ⟨true, -1, ⟨8, false, true⟩⟩ ⟨true, 1, ⟨8, false, true⟩⟩).emitted_cmp
      = false ∧
    ((gen_compare_vregs .COND_GT (compare_flag_unsigned ⟨.TY_FIXNUM, 8, true⟩)
        (decide ((⟨.TY_FIXNUM, 8, true⟩ : CType).kind = .TY_FLONUM))
        ⟨true, -1, ⟨8, false, true⟩⟩ ⟨true, 1, ⟨8, false, true⟩⟩).cond = .COND_ANY ↔
      cmp_holds .COND_GT (compare_flag_unsigned ⟨.TY_FIXNUM, 8, true⟩) (-1) 1 = true) :=
  ⟨(C6_gen_compare_const_fold .COND_GT ⟨.TY_FIXNUM, 8, true⟩
      ⟨true, -1, ⟨8, false, true⟩⟩ ⟨true, 1, ⟨8, false, true⟩⟩
      (by decide) rfl rfl).1,
   (C6_gen_compare_const_fold .COND_GT ⟨.TY_FIXNUM, 8, true⟩
      ⟨true, -1, ⟨8, false, true⟩⟩ ⟨true, 1, ⟨8, false, true⟩⟩
      (by decide) rfl rfl).2.1⟩

/-- C5: before a call, `simplify_funarg` stores every pre/post
increment-decrement, assignment, ternary, nested call, block expression and
short-circuit argument (plus multiply/divide when targeting x86-64) into a
fresh temporary local and replaces it by a variable reference to that
temporary, while literal and plain-variable arguments are returned
unchanged; `gen_funcall` applies this to every argument in order. -/
theorem C5_simplify_funarg (x64 : Bool) (n : Nat) :
    (∀ s, simplify_funarg x64 n (.EX_PREINC s) = (.EX_VAR n, n + 1)) ∧
    (∀ s, simplify_funarg x64 n (.EX_PREDEC s) = (.EX_VAR n, n + 1)) ∧
    (∀ s, simplify_funarg x64 n (.EX_POSTINC s) = (.EX_VAR n, n + 1)) ∧
    (∀ s, simplify_funarg x64 n (.EX_POSTDEC s) = (.EX_VAR n, n + 1)) ∧
    (∀ l r, simplify_funarg x64 n (.EX_ASSIGN l r) = (.EX_VAR n, n + 1)) ∧
    (∀ c t f, simplify_funarg x64 n (.EX_TERNARY c t f) = (.EX_VAR n, n + 1)) ∧
    (∀ f args, simplify_funarg x64 n (.EX_FUNCALL f args) = (.EX_VAR n, n + 1)) ∧
    simplify_funarg x64 n .EX_BLOCK = (.EX_VAR n, n + 1) ∧
    (∀ l r, simplify_funarg x64 n (.EX_LOGAND l r) = (.EX_VAR n, n + 1)) ∧
    (∀ l r, simplify_funarg x64 n (.EX_LOGIOR l r) = (.EX_VAR n, n + 1)) ∧
    (∀ l r, simplify_funarg true n (.EX_MUL l r) = (.EX_VAR n, n + 1)) ∧
    (∀ l r, simplify_funarg true n (.EX_DIV l r) = (.EX_VAR n, n + 1)) ∧
    (∀ v, simplify_funarg x64 n (.EX_FIXNUM v) = (.EX_FIXNUM v, n)) ∧
    simplify_funarg x64 n .EX_FLONUM = (.EX_FLONUM, n) ∧
    simplify_funarg x64 n .EX_STR = (.EX_STR, n) ∧
    (∀ name, simplify_funarg x64 n (.EX_VAR name) = (.EX_VAR name, n)) ∧
    (∀ a rest, simplify_funargs x64 n (a :: rest) =
      ((simplify_funarg x64 n a).1 ::
        (simplify_funargs x64 (simplify_funarg x64 n a).2 rest).1,
       (simplify_funargs x64 (simplify_funarg x64 n a).2 rest).2)) := by
  refine ⟨fun s => rfl, fun s => rfl, fun s => rfl, fun s => rfl, fun l r => rfl,
    fun c t f => rfl, fun f args => rfl, rfl, fun l r => rfl, fun l r => rfl,
    fun l r => rfl, fun l r => rfl, fun v => rfl, rfl, rfl, fun name => rfl,
    fun a rest => ?_⟩
  simp [simplify_funargs]

theorem scan_args_no_e (args : List (List Char))
    (h : ∀ a ∈ args, ¬(starts_with a ['-', 'e'] = true ∧ 2 < a.length)) :
    scan_args args none = .unknown_option ∨ scan_args args none = .ok none := by
  induction args with
  | nil => exact Or.inr rfl
  | cons arg rest ih =>
    have harg := h arg (by simp)
    have hrest : ∀ a ∈ rest, ¬(starts_with a ['-', 'e'] = true ∧ 2 < a.length) :=
      fun a ha => h a (by simp [ha])
    cases arg with
    | nil => exact Or.inr rfl
    | cons c cs =>
      simp only [scan_args]
      split_ifs with h1 h2 h3 <;>
        first
          | exact Or.inr rfl
          | exact Or.inl rfl
          | exact ih hrest

/-- C7: after the preamble, `emit_wasm` writes the sections in exactly the
order Type (1), Import (2, only when a function is imported), Function (3),
Global (6, only when a global exists), Export (7), Code (10); the code
section carries a total-size LEB128, then the function-count LEB128, then
the per-function bodies, the size covering the count field plus the bodies. -/
theorem C7_emit_wasm_sections (types imports functions globals exports : List Nat)
    (imports_count globals_count function_count : Nat)
    (bodies : List (List Nat)) :
    emit_wasm_bytes types imports functions globals exports imports_count
        globals_count function_count bodies
      = wasm_header
        ++ [SEC_TYPE] ++ types
        ++ (if imports_count > 0 then [SEC_IMPORT] ++ imports else [])
        ++ [SEC_FUNC] ++ functions
        ++ (if globals_count > 0 then [SEC_GLOBAL] ++ globals else [])
        ++ [SEC_EXPORT] ++ exports
        ++ [SEC_CODE]
        ++ uleb128_bytes ((uleb128_bytes function_count).length
             + (bodies.map List.length).sum)
        ++ uleb128_bytes function_count
        ++ bodies.flatten := by
  simp only [emit_wasm_bytes, data_push, data_append, data_concat, emit_uleb128,
    data_insert, List.nil_append, List.singleton_append, List.length_cons,
    List.length_nil, List.take_succ_cons, List.take_zero, List.drop_succ_cons,
    List.drop_zero, List.length_append, List.append_assoc]
  split_ifs <;> simp [List.append_assoc]

/-- C8: invoked without a `-e` option carrying at least one character of
export names, wcc reports the `no exports` diagnostic (or the earlier
unknown-option diagnostic) and writes no module, exiting 1; in general the
exit code is 0 exactly when no diagnostic was reported, and exit 0 implies
the module was written. -/
theorem C8_wcc_main_requires_exports (args : List (List Char))
    (pipeline_ok output_ok : Bool)
    (h : ∀ a ∈ args, ¬(starts_with a ['-', 'e'] = true ∧ 2 < a.length)) :
    ((wcc_main args pipeline_ok output_ok).exit_code = 1 ∧
     (wcc_main args pipeline_ok output_ok).module_written = false ∧
     (wcc_main args pipeline_ok output_ok).diag ≠ none) ∧
    (scan_args args none ≠ .unknown_option →
      (wcc_main args pipeline_ok output_ok).diag = some .noExports) ∧
    (∀ args2 : List (List Char), ∀ po oo : Bool,
      ((wcc_main args2 po oo).exit_code = 0 ↔ (wcc_main args2 po oo).diag = none) ∧
      ((wcc_main args2 po oo).exit_code = 0 →
        (wcc_main args2 po oo).module_written = true)) := by
  refine ⟨?_, ?_, ?_⟩
  · rcases scan_args_no_e args h with hs | hs <;>
      simp [wcc_main, hs]
  · intro hne
    rcases scan_args_no_e args h with hs | hs
    · exact absurd hs hne
    · simp [wcc_main, hs]
  · intro args2 po oo
    unfold wcc_main
    rcases hs : scan_args args2 none with _ | exps
    · simp
    · cases exps with
      | none => simp
      | some e => cases po <;> cases oo <;> simp

/-- C8 witness: `wcc -ofoo file.c` (no `-e`) exits 1 without a module and
with the no-exports diagnostic; general exit-code law instantiated. -/
theorem C8_wcc_main_requires_exports_witness :
    (wcc_main [['-', 'o', 'f'], ['f', '.', 'c']] true true).exit_code = 1 ∧
    (wcc_main [['-', 'o', 'f'], ['f', '.', 'c']] true true).diag
      = some .noExports ∧
    ((wcc_main [['-', 'e', 'f']] true true).exit_code = 0 ↔
      (wcc_main [['-', 'e', 'f']] true true).diag = none) := by
  have h := C8_wcc_main_requires_exports [['-', 'o', 'f'], ['f', '.', 'c']]
    true true (by decide)
  exact ⟨h.1.1, h.2.1 (by decide), (h.2.2 [['-', 'e', 'f']] true true).1⟩

theorem find_free_loop_all_occupied (occupied : Nat) (phys_max : Nat)
    (hall : ∀ j, j < phys_max → occupied &&& 2 ^ j ≠ 0) :
    ∀ j0, find_free_loop occupied j0 phys_max = -1 := by
  intro j0
  rw [find_free_loop]
  split
  · rename_i hlt
    rw [if_neg (hall j0 hlt)]
    exact find_free_loop_all_occupied occupied phys_max hall (j0 + 1)
  · rfl
termination_by j0 => phys_max - j0

theorem choose_regno_all_occupied (ra : RAConfig) (prs : PhysicalRegisterSet)
    (vreg : RVReg) (occupied : Nat)
    (hall : ∀ j, j < prs.phys_max → occupied &&& 2 ^ j ≠ 0)
    (hhint : 0 ≤ vreg.reg_param_index →
      (if vreg.flonum then vreg.reg_param_index
       else ra.reg_param_mapping vreg.reg_param_index.toNat) < (prs.phys_max : Int)) :
    choose_regno ra prs vreg occupied = -1 := by
  have hffl := find_free_loop_all_occupied occupied prs.phys_max hall
  simp only [choose_regno, decide_eq_true_eq]
  set IP := (if 0 ≤ vreg.reg_param_index then
      (if vreg.flonum = true then vreg.reg_param_index
       else ra.reg_param_mapping vreg.reg_param_index.toNat)
      else vreg.reg_param_index) with hIP
  have hA : ¬(0 ≤ vreg.reg_param_index ∧ 0 ≤ IP ∧ occupied &&& 2 ^ IP.toNat = 0) := by
    rintro ⟨h0, h1, h2⟩
    rw [hIP, if_pos h0] at h1 h2
    have hm := hhint h0
    have hlt : (if vreg.flonum = true then vreg.reg_param_index
        else ra.reg_param_mapping vreg.reg_param_index.toNat).toNat < prs.phys_max := by
      omega
    exact hall _ hlt h2
  rw [if_neg hA, if_pos (by norm_num : (-1 : Int) < 0)]
  exact hffl _

theorem sorted_getLast_max (l : List LiveInterval)
    (hs : l.Pairwise (fun a b => a.endp ≤ b.endp)) (hne : l ≠ []) :
    ∀ q ∈ l, q.endp ≤ (l.getLast hne).endp := by
  intro q hq
  have hdecomp : l.dropLast ++ [l.getLast hne] = l := List.dropLast_append_getLast hne
  rw [← hdecomp] at hs hq
  rcases List.mem_append.mp hq with h | h
  · exact (List.pairwise_append.mp hs).2.2 q h _ (by simp)
  · simp at h
    simp [h]

/-- C3: when no physical register of the interval's class is free (every
register below the class bound is in the using set or the forbid set, and
the parameter hint, when present, maps below the class bound), the
allocator picks the active interval with the farthest end; if that end is
strictly later than the new interval's end, that interval is marked spilled
with the sentinel index `ra->phys_max` and its register is transferred to
the new interval, which is inserted among the remaining actives; otherwise
the new interval itself is spilled with the sentinel index. -/
theorem C3_split_at_interval (ra : RAConfig) (prs : PhysicalRegisterSet)
    (vreg : RVReg) (li : LiveInterval)
    (hsorted : prs.active.Pairwise (fun a b => a.endp ≤ b.endp))
    (hne : prs.active ≠ [])
    (hall : ∀ j, j < prs.phys_max →
      (prs.using_bits ||| li.occupied_reg_bit) &&& 2 ^ j ≠ 0)
    (hhint : 0 ≤ vreg.reg_param_index →
      (if vreg.flonum then vreg.reg_param_index
       else ra.reg_param_mapping vreg.reg_param_index.toNat) < (prs.phys_max : Int)) :
    (∀ q ∈ prs.active, q.endp ≤ (prs.active.getLast hne).endp) ∧
    ((prs.active.getLast hne).endp > li.endp →
      reg_select ra prs vreg li =
        ({ prs with
            active := insert_active prs.active.dropLast
              { li with phys := (prs.active.getLast hne).phys },
            used_bits := prs.used_bits ||| prs.using_bits },
         [{ prs.active.getLast hne with phys := ra.phys_max, state := .LI_SPILL }])) ∧
    (¬(prs.active.getLast hne).endp > li.endp →
      reg_select ra prs vreg li =
        ({ prs with used_bits := prs.used_bits ||| prs.using_bits },
         [{ li with phys := ra.phys_max, state := .LI_SPILL }])) := by
  have hglast : prs.active.getLast? = some (prs.active.getLast hne) :=
    List.getLast?_eq_getLast prs.active hne
  have hreg := choose_regno_all_occupied ra prs vreg
    (prs.using_bits ||| li.occupied_reg_bit) hall hhint
  have hsel : reg_select ra prs vreg li =
      ({ prs with active := (split_at_interval ra.phys_max prs.active li).1,
                  used_bits := prs.used_bits ||| prs.using_bits },
       (split_at_interval ra.phys_max prs.active li).2) := by
    rw [reg_select, hreg]
    norm_num
  refine ⟨sorted_getLast_max prs.active hsorted hne, ?_, ?_⟩
  · intro hgt
    rw [hsel]
    simp only [split_at_interval, hglast, if_pos hgt]
  · intro hle
    rw [hsel]
    simp only [split_at_interval, hglast, if_neg hle]

/-- C3 witness: one active interval `[0,10)` holding the only register of a
one-register class; allocating `[5,8)` with everything occupied evicts and
spills the active interval and hands its register over. -/
theorem C3_split_at_interval_witness :
    reg_select ⟨1, 1, 0, 0, fun _ => -1⟩
        ⟨[⟨0, 0, 10, 0, .LI_NORMAL, 0⟩], 1, 1, 1, 1⟩
        ⟨false, false, false, false, -1, -1⟩ ⟨1, 5, 8, -1, .LI_NORMAL, 0⟩
      = (⟨[⟨1, 5, 8, 0, .LI_NORMAL, 0⟩], 1, 1, 1, 1⟩,
         [⟨0, 0, 10, 1, .LI_SPILL, 0⟩]) := by
  have h := C3_split_at_interval ⟨1, 1, 0, 0, fun _ => -1⟩
    ⟨[⟨0, 0, 10, 0, .LI_NORMAL, 0⟩], 1, 1, 1, 1⟩
    ⟨false, false, false, false, -1, -1⟩ ⟨1, 5, 8, -1, .LI_NORMAL, 0⟩
    (by simp) (by simp)
    (by
      intro j hj
      have hj1 : j < 1 := hj
      have hj0 : j = 0 := by omega
      subst hj0
      decide)
    (by intro h0; exact absurd h0 (by norm_num))
  have h2 := h.2.1 (by norm_num [List.getLast])
  rw [h2]
  rfl

theorem mem_insert_active (A : List LiveInterval) (x q : LiveInterval) :
    q ∈ insert_active A x ↔ q = x ∨ q ∈ A := by
  induction A with
  | nil => simp [insert_active]
  | cons p rest ih =>
    rw [insert_active]
    split
    · simp [or_comm, or_assoc, or_left_comm]
    · simp [ih, or_comm, or_assoc, or_left_comm]

theorem pairwise_ne_insert_active (A : List LiveInterval) (x : LiveInterval)
    (h : ∀ q ∈ A, q.phys ≠ x.phys)
    (hp : A.Pairwise (fun a b => a.phys ≠ b.phys)) :
    (insert_active A x).Pairwise (fun a b => a.phys ≠ b.phys) := by
  induction A with
  | nil => simp [insert_active]
  | cons p rest ih =>
    rw [insert_active]
    rcases List.pairwise_cons.mp hp with ⟨hp1, hp2⟩
    split
    · refine List.pairwise_cons.mpr ⟨?_, hp⟩
      intro q hq
      exact Ne.symm (h q hq)
    · refine List.pairwise_cons.mpr ⟨?_, ih (fun q hq => h q (by simp [hq])) hp2⟩
      intro q hq
      rcases (mem_insert_active rest x q).mp hq with h1 | h1
      · exact h1 ▸ h p (by simp)
      · exact hp1 q h1

theorem and_two_pow_eq_zero_iff (a k : Nat) :
    a &&& 2 ^ k = 0 ↔ a.testBit k = false := by
  constructor
  · intro h
    have := congrArg (fun n => Nat.testBit n k) h
    simpa [Nat.testBit_land, Nat.testBit_two_pow_self] using this
  · intro h
    apply Nat.eq_of_testBit_eq
    intro i
    simp only [Nat.testBit_land, Nat.zero_testBit]
    by_cases hik : i = k
    · subst hik
      simp [h]
    · simp [Nat.testBit_two_pow_of_ne (Ne.symm hik)]

theorem expire_scan_spec (active : List LiveInterval) (start : Int) (ub : Nat)
    (hdist : active.Pairwise (fun a b => a.phys ≠ b.phys))
    (hpos : ∀ li ∈ active, 0 ≤ li.phys) :
    (expire_scan active start ub).1 ++ (expire_scan active start ub).2.1 = active ∧
    (∀ li ∈ (expire_scan active start ub).1, li.endp ≤ start) ∧
    (∀ li ∈ (expire_scan active start ub).2.1,
      Nat.testBit ub li.phys.toNat = true →
        Nat.testBit (expire_scan active start ub).2.2 li.phys.toNat = true) := by
  induction active generalizing ub with
  | nil => simp [expire_scan]
  | cons h0 rest ih =>
    rw [expire_scan]
    split
    · refine ⟨rfl, by simp, ?_⟩
      intro li _ hb
      exact hb
    · rename_i hle
      rcases List.pairwise_cons.mp hdist with ⟨hd1, hd2⟩
      have hrec := ih (Nat.ldiff ub (2 ^ h0.phys.toNat)) hd2
        (fun li hli => hpos li (by simp [hli]))
      refine ⟨by simpa using hrec.1, ?_, ?_⟩
      · intro li hli
        rcases List.mem_cons.mp (by simpa using hli) with h1 | h1
        · subst h1
          omega
        · exact hrec.2.1 li h1
      · intro li hli hb
        have hli2 : li ∈ (expire_scan rest start
            (Nat.ldiff ub (2 ^ h0.phys.toNat))).2.1 := by simpa using hli
        have hmem : li ∈ rest := by
          rw [← hrec.1]
          exact List.mem_append_right _ hli2
        have hne : li.phys.toNat ≠ h0.phys.toNat := by
          have h1 := Ne.symm (hd1 li hmem)
          have h2 := hpos li (by simp [hmem])
          have h3 := hpos h0 (by simp)
          omega
        have hb2 : Nat.testBit (Nat.ldiff ub (2 ^ h0.phys.toNat))
            li.phys.toNat = true := by
          rw [Nat.testBit_ldiff, hb, Nat.testBit_two_pow_of_ne (Ne.symm hne)]
          rfl
        simpa using hrec.2.2 li hli2 hb2

theorem find_free_loop_spec (occ : Nat) (pm : Nat) : ∀ j,
    find_free_loop occ j pm = -1 ∨
    (0 ≤ find_free_loop occ j pm ∧ (find_free_loop occ j pm).toNat < pm ∧
      occ &&& 2 ^ (find_free_loop occ j pm).toNat = 0) := by
  intro j
  rw [find_free_loop]
  split
  · rename_i hlt
    split
    · rename_i hbit
      right
      refine ⟨by omega, ?_, ?_⟩
      · simpa using hlt
      · simpa using hbit
    · exact find_free_loop_spec occ pm (j + 1)
  · left
    rfl
termination_by j => pm - j

theorem choose_regno_spec (ra : RAConfig) (prs : PhysicalRegisterSet)
    (vreg : RVReg) (occupied : Nat) :
    choose_regno ra prs vreg occupied = -1 ∨
    (0 ≤ choose_regno ra prs vreg occupied ∧
      occupied &&& 2 ^ (choose_regno ra prs vreg occupied).toNat = 0 ∧
      ((choose_regno ra prs vreg occupied).toNat < prs.phys_max ∨
        (0 ≤ vreg.reg_param_index ∧
          choose_regno ra prs vreg occupied =
            (if vreg.flonum then vreg.reg_param_index
             else ra.reg_param_mapping vreg.reg_param_index.toNat)))) := by
  simp only [choose_regno, decide_eq_true_eq]
  set IP := (if 0 ≤ vreg.reg_param_index then
      (if vreg.flonum = true then vreg.reg_param_index
       else ra.reg_param_mapping vreg.reg_param_index.toNat)
      else vreg.reg_param_index) with hIP
  by_cases hA : 0 ≤ vreg.reg_param_index ∧ 0 ≤ IP ∧ occupied &&& 2 ^ IP.toNat = 0
  · rw [if_pos hA, if_neg (by omega : ¬IP < 0)]
    right
    refine ⟨hA.2.1, hA.2.2, Or.inr ⟨hA.1, ?_⟩⟩
    rw [hIP, if_pos hA.1]
  · rw [if_neg hA, if_pos (by norm_num : (-1 : Int) < 0)]
    rcases find_free_loop_spec occupied prs.phys_max
        (if 0 ≤ vreg.reg_param_index ∧ ¬(0 ≤ IP ∧ occupied &&& 2 ^ IP.toNat = 0)
         then prs.phys_temporary else 0) with h | h
    · exact Or.inl h
    · exact Or.inr ⟨h.1, h.2.2, Or.inl h.2.1⟩

theorem prs_inv_mono (vregs : List (Option RVReg)) (flo : Bool) (classMax : Nat)
    (prs : PhysicalRegisterSet) (pos pos' : Int)
    (h : prs_inv vregs flo classMax prs pos) (hle : pos ≤ pos') :
    prs_inv vregs flo classMax prs pos' := by
  refine ⟨fun li hli => ?_, h.2⟩
  obtain ⟨h1, h2, h3, h4, h5, h6⟩ := h.1 li hli
  exact ⟨h1, h2, h3, le_trans h4 hle, h5, h6⟩

theorem no_conflict_symm (vregs : List (Option RVReg)) (p q : LiveInterval)
    (h : no_conflict vregs p q) : no_conflict vregs q p := by
  intro hv hsc ha hb hov
  obtain ⟨vq, vp, h1, h2, h3⟩ := hsc
  exact Ne.symm (h (Ne.symm hv) ⟨vp, vq, h2, h1, h3.symm⟩ hb ha ⟨hov.2, hov.1⟩)

theorem getD_some_mem (vregs : List (Option RVReg)) (i : Nat) (v : RVReg)
    (h : vregs.getD i none = some v) : (some v) ∈ vregs := by
  by_cases hi : i < vregs.length
  · rw [List.getD_eq_getElem _ _ hi] at h
    rw [← h]
    exact List.getElem_mem hi
  · rw [List.getD_eq_default _ _ (by omega)] at h
    exact absurd h (by simp)

theorem expire_prs_inv (vregs : List (Option RVReg)) (flo : Bool)
    (classMax : Nat) (prs : PhysicalRegisterSet) (pos npos : Int)
    (h : prs_inv vregs flo classMax prs pos) (hle : pos ≤ npos) :
    prs_inv vregs flo classMax (expire_old_intervals prs npos).1 npos ∧
    (expire_old_intervals prs npos).1.phys_max = prs.phys_max ∧
    (expire_old_intervals prs npos).1.phys_temporary = prs.phys_temporary ∧
    (∀ q ∈ (expire_old_intervals prs npos).2, q ∈ prs.active ∧ q.endp ≤ npos) ∧
    (∀ q ∈ (expire_old_intervals prs npos).1.active, q ∈ prs.active) := by
  have hpos : ∀ li ∈ prs.active, 0 ≤ li.phys := fun li hli => (h.1 li hli).2.1
  have hspec := expire_scan_spec prs.active npos prs.using_bits h.2 hpos
  have hact : (expire_old_intervals prs npos).1.active =
      (expire_scan prs.active npos prs.using_bits).2.1 := rfl
  have hub : (expire_old_intervals prs npos).1.using_bits =
      (expire_scan prs.active npos prs.using_bits).2.2 := rfl
  have hex : (expire_old_intervals prs npos).2 =
      (expire_scan prs.active npos prs.using_bits).1 := rfl
  have hmem_rem : ∀ q ∈ (expire_scan prs.active npos prs.using_bits).2.1,
      q ∈ prs.active := by
    intro q hq
    rw [← hspec.1]
    exact List.mem_append_right _ hq
  have hmem_ex : ∀ q ∈ (expire_scan prs.active npos prs.using_bits).1,
      q ∈ prs.active := by
    intro q hq
    rw [← hspec.1]
    exact List.mem_append_left _ hq
  refine ⟨⟨?_, ?_⟩, rfl, rfl, ?_, ?_⟩
  · intro li hli
    rw [hact] at hli
    obtain ⟨h1, h2, h3, h4, h5, h6⟩ := h.1 li (hmem_rem li hli)
    rw [hub]
    exact ⟨h1, h2, h3, le_trans h4 hle, hspec.2.2 li hli h5, h6⟩
  · rw [hact]
    have hsub := List.sublist_append_right
      (expire_scan prs.active npos prs.using_bits).1
      (expire_scan prs.active npos prs.using_bits).2.1
    rw [hspec.1] at hsub
    exact h.2.sublist hsub
  · intro q hq
    rw [hex] at hq
    exact ⟨hmem_ex q hq, hspec.2.1 q hq⟩
  · intro q hq
    rw [hact] at hq
    exact hmem_rem q hq

theorem lor_and_two_pow_zero (a b k : Nat) (h : (a ||| b) &&& 2 ^ k = 0) :
    a &&& 2 ^ k = 0 := by
  rw [and_two_pow_eq_zero_iff] at h ⊢
  rw [Nat.testBit_lor] at h
  exact (Bool.or_eq_false_iff.mp h).1

theorem reg_select_inv (ra : RAConfig) (vregs : List (Option RVReg)) (flo : Bool)
    (classMax : Nat) (prs : PhysicalRegisterSet) (li : LiveInterval) (vreg : RVReg)
    (h : prs_inv vregs flo classMax prs li.start)
    (hcm : prs.phys_max = classMax)
    (hv : vregs.getD li.virt none = some vreg) (hvf : vreg.flonum = flo)
    (hst : li.state = .LI_NORMAL)
    (hhint : 0 ≤ vreg.reg_param_index →
      0 ≤ (if vreg.flonum then vreg.reg_param_index
           else ra.reg_param_mapping vreg.reg_param_index.toNat) →
      (if vreg.flonum then vreg.reg_param_index
       else ra.reg_param_mapping vreg.reg_param_index.toNat) < (classMax : Int)) :
    prs_inv vregs flo classMax (reg_select ra prs vreg li).1 li.start ∧
    (reg_select ra prs vreg li).1.phys_max = prs.phys_max ∧
    (reg_select ra prs vreg li).1.phys_temporary = prs.phys_temporary ∧
    (∀ q ∈ (reg_select ra prs vreg li).1.active,
      q ∈ prs.active ∨ q = { li with phys := q.phys }) ∧
    (∀ q ∈ (reg_select ra prs vreg li).2, q.state = .LI_SPILL) := by
  rcases choose_regno_spec ra prs vreg (prs.using_bits ||| li.occupied_reg_bit)
    with hreg | ⟨hr0, hrbit, hrbound⟩
  · -- no register: split_at_interval path
    have hsel : reg_select ra prs vreg li =
        ({ prs with
            active := (split_at_interval ra.phys_max prs.active li).1,
            used_bits := prs.used_bits ||| prs.using_bits },
         (split_at_interval ra.phys_max prs.active li).2) := by
      rw [reg_select, hreg]
      norm_num
    rw [hsel]
    cases hglast : prs.active.getLast? with
    | none =>
      have hnil : prs.active = [] := List.getLast?_eq_none_iff.mp hglast
      simp only [split_at_interval, hglast]
      refine ⟨⟨?_, ?_⟩, by trivial, by trivial, ?_, ?_⟩
      · intro q hq
        rw [hnil] at hq
        exact absurd hq (by simp)
      · rw [hnil]
        exact List.Pairwise.nil
      · intro q hq
        rw [hnil] at hq
        exact absurd hq (by simp)
      · intro q hq
        simp only [List.mem_singleton] at hq
        rw [hq]
    | some spill =>
      have hne : prs.active ≠ [] := by
        intro hc
        rw [hc] at hglast
        exact absurd hglast (by simp)
      have hspill_eq : spill = prs.active.getLast hne := by
        have := List.getLast?_eq_getLast prs.active hne
        rw [hglast] at this
        exact Option.some.inj this
      have hdecomp : prs.active.dropLast ++ [spill] = prs.active := by
        rw [hspill_eq]
        exact List.dropLast_append_getLast hne
      have hspill_mem : spill ∈ prs.active := List.mem_of_mem_getLast? hglast
      have hdrop_sub : ∀ q ∈ prs.active.dropLast, q ∈ prs.active := by
        intro q hq
        rw [← hdecomp]
        exact List.mem_append_left _ hq
      have hdrop_ne : ∀ q ∈ prs.active.dropLast, q.phys ≠ spill.phys := by
        intro q hq
        have hp := h.2
        rw [← hdecomp] at hp
        exact (List.pairwise_append.mp hp).2.2 q hq spill (by simp)
      have hdrop_pw : prs.active.dropLast.Pairwise (fun a b => a.phys ≠ b.phys) := by
        have hp := h.2
        rw [← hdecomp] at hp
        exact (List.pairwise_append.mp hp).1
      simp only [split_at_interval, hglast]
      by_cases hgt : spill.endp > li.endp
      · rw [if_pos hgt]
        obtain ⟨hs1, hs2, hs3, hs4, hs5, hs6⟩ := h.1 spill hspill_mem
        refine ⟨⟨?_, ?_⟩, by trivial, by trivial, ?_, ?_⟩
        · intro q hq
          rcases (mem_insert_active _ _ q).mp hq with hq1 | hq1
          · rw [hq1]
            exact ⟨hst, hs2, hs3, le_refl _, hs5, ⟨vreg, hv, hvf⟩⟩
          · exact h.1 q (hdrop_sub q hq1)
        · exact pairwise_ne_insert_active _ _ hdrop_ne hdrop_pw
        · intro q hq
          rcases (mem_insert_active _ _ q).mp hq with hq1 | hq1
          · right
            rw [hq1]
          · exact Or.inl (hdrop_sub q hq1)
        · intro q hq
          simp only [List.mem_singleton] at hq
          rw [hq]
      · rw [if_neg hgt]
        refine ⟨⟨fun q hq => h.1 q hq, h.2⟩, by trivial, by trivial,
          fun q hq => Or.inl hq, ?_⟩
        intro q hq
        simp only [List.mem_singleton] at hq
        rw [hq]
  · -- a register is free: assignment path
    set r := choose_regno ra prs vreg (prs.using_bits ||| li.occupied_reg_bit)
      with hrdef
    have hsel : reg_select ra prs vreg li =
        (PhysicalRegisterSet.mk
          (insert_active prs.active { li with phys := r })
          prs.phys_max prs.phys_temporary
          (prs.using_bits ||| 2 ^ r.toNat)
          (prs.used_bits ||| (prs.using_bits ||| 2 ^ r.toNat)), []) := by
      rw [reg_select, ← hrdef, if_pos hr0]
    have hfree : Nat.testBit prs.using_bits r.toNat = false := by
      rw [← and_two_pow_eq_zero_iff]
      exact lor_and_two_pow_zero _ _ _ hrbit
    have hboundr : r < (classMax : Int) := by
      rcases hrbound with hb | ⟨hip0, heq⟩
      · rw [hcm] at hb
        omega
      · rw [heq]
        refine hhint hip0 ?_
        rw [← heq]
        exact hr0
    have hact_ne : ∀ q ∈ prs.active, q.phys ≠ r := by
      intro q hq
      obtain ⟨_, hq2, _, _, hq5, _⟩ := h.1 q hq
      intro hc
      rw [hc] at hq5
      rw [hq5] at hfree
      exact absurd hfree (by simp)
    rw [hsel]
    refine ⟨⟨?_, ?_⟩, by trivial, by trivial, ?_, by simp⟩
    · intro q hq
      rcases (mem_insert_active _ _ q).mp hq with hq1 | hq1
      · rw [hq1]
        refine ⟨hst, hr0, hboundr, le_refl _, ?_, ⟨vreg, hv, hvf⟩⟩
        rw [Nat.testBit_lor, Nat.testBit_two_pow_self]
        simp
      · obtain ⟨hq1a, hq2, hq3, hq4, hq5, hq6⟩ := h.1 q hq1
        refine ⟨hq1a, hq2, hq3, hq4, ?_, hq6⟩
        rw [Nat.testBit_lor, hq5]
        simp
    · exact pairwise_ne_insert_active _ _ hact_ne h.2
    · intro q hq
      rcases (mem_insert_active _ _ q).mp hq with hq1 | hq1
      · right
        rw [hq1]
      · exact Or.inl hq1

theorem same_class_mismatch (vregs : List (Option RVReg)) (x y : LiveInterval)
    (cx cy : Bool)
    (hx : ∃ v : RVReg, vregs.getD x.virt none = some v ∧ v.flonum = cx)
    (hy : ∃ v : RVReg, vregs.getD y.virt none = some v ∧ v.flonum = cy)
    (hne : cx ≠ cy) : ¬same_class vregs x y := by
  rintro ⟨vp, vq, h1, h2, h3⟩
  obtain ⟨vx, hx1, hx2⟩ := hx
  obtain ⟨vy, hy1, hy2⟩ := hy
  rw [h1] at hx1
  rw [h2] at hy1
  obtain rfl := Option.some.inj hx1
  obtain rfl := Option.some.inj hy1
  exact hne (hx2 ▸ hy2 ▸ h3 ▸ rfl)

theorem ls_inv_core (ra : RAConfig) (vregs : List (Option RVReg))
    (li : LiveInterval) (vreg : RVReg) (pos : Int) (cFlo : Bool) (cMax : Nat)
    (cSet oSet : PhysicalRegisterSet) (exC exO finished : List LiveInterval)
    (oldOut : List LiveInterval)
    (HpC : prs_inv vregs cFlo cMax cSet li.start)
    (HcMax : cSet.phys_max = cMax)
    (HcIs : cMax = if cFlo then ra.fphys_max else ra.phys_max)
    (hv : vregs.getD li.virt none = some vreg) (hvf : vreg.flonum = cFlo)
    (hst : li.state = .LI_NORMAL)
    (hhint : 0 ≤ vreg.reg_param_index →
      0 ≤ (if vreg.flonum then vreg.reg_param_index
           else ra.reg_param_mapping vreg.reg_param_index.toNat) →
      (if vreg.flonum then vreg.reg_param_index
       else ra.reg_param_mapping vreg.reg_param_index.toNat) < (cMax : Int))
    (HcMem : ∀ q ∈ cSet.active, q ∈ oldOut)
    (HoMem : ∀ q ∈ oSet.active, q ∈ oldOut)
    (HoCls : ∀ q ∈ oSet.active,
      ∃ v : RVReg, vregs.getD q.virt none = some v ∧ v.flonum = !cFlo)
    (HexC : ∀ q ∈ exC, q ∈ oldOut ∧ q.endp ≤ li.start)
    (HexO : ∀ q ∈ exO, q ∈ oldOut ∧ q.endp ≤ li.start)
    (HfinMem : ∀ q ∈ finished, q ∈ oldOut)
    (HfinEnd : finished_inv vregs finished pos) (hpos : pos ≤ li.start)
    (HfinTri : ∀ x ∈ finished, li_trichotomy vregs ra x)
    (HexCTri : ∀ x ∈ exC, li_trichotomy vregs ra x)
    (HexOTri : ∀ x ∈ exO, li_trichotomy vregs ra x)
    (Hnc : ∀ p ∈ oldOut, ∀ q ∈ oldOut, no_conflict vregs p q) :
    (∀ p, (p ∈ finished ∨ p ∈ exC ∨ p ∈ exO ∨ p ∈ (reg_select ra cSet vreg li).2 ∨
        p ∈ (reg_select ra cSet vreg li).1.active ∨ p ∈ oSet.active) →
      ∀ q, (q ∈ finished ∨ q ∈ exC ∨ q ∈ exO ∨ q ∈ (reg_select ra cSet vreg li).2 ∨
        q ∈ (reg_select ra cSet vreg li).1.active ∨ q ∈ oSet.active) →
      no_conflict vregs p q) ∧
    finished_inv vregs
      (finished ++ exC ++ exO ++ (reg_select ra cSet vreg li).2) li.start ∧
    (∀ x ∈ finished ++ exC ++ exO ++ (reg_select ra cSet vreg li).2,
      li_trichotomy vregs ra x) := by
  obtain ⟨hrs_inv, hrs_max, hrs_tmp, hrs_mem, hrs_spill⟩ :=
    reg_select_inv ra vregs cFlo cMax cSet li vreg HpC HcMax hv hvf hst hhint
  -- spilled records conflict with nothing
  have hspill_nc : ∀ x ∈ (reg_select ra cSet vreg li).2, ∀ y,
      no_conflict vregs x y ∧ no_conflict vregs y x := by
    intro x hx y
    have hs := hrs_spill x hx
    constructor
    · intro _ _ ha _ _
      have h1 : x.state = LIState.LI_NORMAL := ha.1
      rw [hs] at h1
      exact absurd h1 (by simp)
    · intro _ _ _ hb _
      have h1 : x.state = LIState.LI_NORMAL := hb.1
      rw [hs] at h1
      exact absurd h1 (by simp)
  -- the freshly allocated interval against old, ended, and other-class ones
  have hnli_end : ∀ n, n = { li with phys := n.phys } → ∀ y, y.endp ≤ li.start →
      no_conflict vregs n y := by
    intro n hn y hy hvirt hsc ha hb hov
    have hns : n.start = li.start := by rw [hn]
    have hov1 : n.start < y.endp := hov.1
    exact absurd hov1 (by omega)
  have hnli_old : ∀ n, n = { li with phys := n.phys } → ∀ y ∈ finished,
      no_conflict vregs n y := by
    intro n hn y hy hvirt hsc ha hb hov
    obtain ⟨vp, vq, h1, h2, h3⟩ := hsc
    have hyend : y.endp ≤ pos := HfinEnd y hy hb ⟨vq, h2⟩
    have hns : n.start = li.start := by rw [hn]
    have hov1 : n.start < y.endp := hov.1
    exact absurd hov1 (by omega)
  have hnli_other : ∀ n, n = { li with phys := n.phys } → ∀ y ∈ oSet.active,
      no_conflict vregs n y := by
    intro n hn y hy hvirt hsc ha hb hov
    refine absurd hsc (same_class_mismatch vregs n y cFlo (!cFlo) ?_ (HoCls y hy) (by simp))
    refine ⟨vreg, ?_, hvf⟩
    have : n.virt = li.virt := by rw [hn]
    rw [this]
    exact hv
  -- both in the updated class-set active list
  have hact_pair : ∀ p ∈ (reg_select ra cSet vreg li).1.active,
      ∀ q ∈ (reg_select ra cSet vreg li).1.active, no_conflict vregs p q := by
    intro p hp q hq
    by_cases hpq : p = q
    · intro hvirt _ _ _ _
      exact absurd (by rw [hpq]) hvirt
    · intro _ _ _ _ _
      exact List.Pairwise.forall (fun a b h => Ne.symm h) hrs_inv.2 hp hq hpq
  -- classification of members of the updated class-set active list
  have hact_cases : ∀ q ∈ (reg_select ra cSet vreg li).1.active,
      q ∈ oldOut ∨ q = { li with phys := q.phys } := by
    intro q hq
    rcases hrs_mem q hq with h | h
    · exact Or.inl (HcMem q h)
    · exact Or.inr h
  have hnli_all : ∀ n ∈ (reg_select ra cSet vreg li).1.active,
      n = { li with phys := n.phys } →
      ∀ q, (q ∈ finished ∨ q ∈ exC ∨ q ∈ exO ∨ q ∈ (reg_select ra cSet vreg li).2 ∨
        q ∈ (reg_select ra cSet vreg li).1.active ∨ q ∈ oSet.active) →
      no_conflict vregs n q := by
    intro n hnmem hn q hq
    rcases hq with h | h | h | h | h | h
    · exact hnli_old n hn q h
    · exact hnli_end n hn q (HexC q h).2
    · exact hnli_end n hn q (HexO q h).2
    · exact (hspill_nc q h n).2
    · exact hact_pair n hnmem q h
    · exact hnli_other n hn q h
  have hold_of : ∀ p, (p ∈ finished ∨ p ∈ exC ∨ p ∈ exO ∨
      p ∈ (reg_select ra cSet vreg li).2 ∨
      p ∈ (reg_select ra cSet vreg li).1.active ∨ p ∈ oSet.active) →
      p ∈ oldOut ∨ p ∈ (reg_select ra cSet vreg li).2 ∨
      (p ∈ (reg_select ra cSet vreg li).1.active ∧
        p = { li with phys := p.phys }) := by
    intro p hp
    rcases hp with h | h | h | h | h | h
    · exact Or.inl (HfinMem p h)
    · exact Or.inl (HexC p h).1
    · exact Or.inl (HexO p h).1
    · exact Or.inr (Or.inl h)
    · rcases hact_cases p h with h2 | h2
      · exact Or.inl h2
      · exact Or.inr (Or.inr ⟨h, h2⟩)
    · exact Or.inl (HoMem p h)
  refine ⟨?_, ?_, ?_⟩
  · intro p hp q hq
    rcases hold_of p hp with hp2 | hp2 | hp2
    · rcases hold_of q hq with hq2 | hq2 | hq2
      · exact Hnc p hp2 q hq2
      · exact (hspill_nc q hq2 p).2
      · exact no_conflict_symm vregs q p (hnli_all q hq2.1 hq2.2 p hp)
    · exact (hspill_nc p hp2 q).1
    · exact hnli_all p hp2.1 hp2.2 q hq
  · intro x hx hass hsome
    rcases List.mem_append.mp hx with hx1 | hx1
    · rcases List.mem_append.mp hx1 with hx2 | hx2
      · rcases List.mem_append.mp hx2 with hx3 | hx3
        · exact le_trans (HfinEnd x hx3 hass hsome) hpos
        · exact (HexC x hx3).2
      · exact (HexO x hx2).2
    · have hs := hrs_spill x hx1
      have h1 : x.state = LIState.LI_NORMAL := hass.1
      rw [hs] at h1
      exact absurd h1 (by simp)
  · intro x hx
    rcases List.mem_append.mp hx with hx1 | hx1
    · rcases List.mem_append.mp hx1 with hx2 | hx2
      · rcases List.mem_append.mp hx2 with hx3 | hx3
        · exact HfinTri x hx3
        · exact HexCTri x hx3
      · exact HexOTri x hx2
    · intro v _
      exact Or.inr (Or.inl (hrs_spill x hx1))

theorem ls_inv_skip (ra : RAConfig) (vregs : List (Option RVReg)) (st : LSState)
    (li : LiveInterval) (pos pos' : Int) (Hinv : ls_inv ra vregs st pos)
    (hle : pos ≤ pos')
    (hskip : vregs.getD li.virt none = none ∨ ¬li.state = .LI_NORMAL) :
    ls_inv ra vregs { st with finished := st.finished ++ [li] } pos' := by
  obtain ⟨HpI, HpF, HmaxI, HmaxF, Hfin, Hnc, Htri⟩ := Hinv
  have hout : ∀ x : LiveInterval,
      x ∈ alloc_output { st with finished := st.finished ++ [li] } ↔
      x ∈ alloc_output st ∨ x = li := by
    intro x
    simp only [alloc_output, List.mem_append, List.mem_singleton]
    tauto
  have hli_nc : ∀ y, no_conflict vregs li y := by
    rcases hskip with h | h
    · intro y hvirt hsc _ _ _
      obtain ⟨vp, _, h1, _, _⟩ := hsc
      rw [h] at h1
      exact absurd h1 (by simp)
    · intro y _ _ ha _ _
      exact absurd ha.1 h
  refine ⟨prs_inv_mono _ _ _ _ _ _ HpI hle, prs_inv_mono _ _ _ _ _ _ HpF hle,
    HmaxI, HmaxF, ?_, ?_, ?_⟩
  · intro x hx hass hsome
    rcases List.mem_append.mp hx with h | h
    · exact le_trans (Hfin x h hass hsome) hle
    · rw [List.mem_singleton] at h
      subst h
      rcases hskip with h2 | h2
      · obtain ⟨v, hv2⟩ := hsome
        rw [h2] at hv2
        exact absurd hv2 (by simp)
      · exact absurd hass.1 h2
  · intro p hp q hq
    rcases (hout p).mp hp with h1 | h1
    · rcases (hout q).mp hq with h2 | h2
      · exact Hnc p h1 q h2
      · subst h2
        exact no_conflict_symm vregs q p (hli_nc p)
    · subst h1
      exact hli_nc q
  · intro x hx
    rcases List.mem_append.mp hx with h | h
    · exact Htri x h
    · rw [List.mem_singleton] at h
      subst h
      intro v hv2
      rcases hskip with h2 | h2
      · rw [h2] at hv2
        exact absurd hv2 (by simp)
      · cases hs : x.state with
        | LI_NORMAL => exact absurd hs h2
        | LI_CONST => exact Or.inl rfl
        | LI_SPILL => exact Or.inr (Or.inl rfl)

set_option maxHeartbeats 2000000 in
theorem linear_scan_step_inv (ra : RAConfig) (vregs : List (Option RVReg))
    (st : LSState) (li : LiveInterval) (pos : Int)
    (Hinv : ls_inv ra vregs st pos) (Hpos : pos ≤ li.start)
    (Hmap : ∀ n : Nat, 0 ≤ ra.reg_param_mapping n →
      ra.reg_param_mapping n < (ra.phys_max : Int))
    (Hflo : ∀ v : RVReg, (some v) ∈ vregs → v.flonum = true →
      0 ≤ v.reg_param_index → v.reg_param_index < (ra.fphys_max : Int)) :
    ls_inv ra vregs (linear_scan_step ra vregs st li) li.start := by
  rw [linear_scan_step]
  cases hv : vregs.getD li.virt none with
  | none => exact ls_inv_skip ra vregs st li pos li.start Hinv Hpos (Or.inl hv)
  | some vreg =>
    dsimp only
    by_cases hst : li.state = LIState.LI_NORMAL
    · rw [if_neg (by simp [hst])]
      rw [← @Prod.mk.eta _ _ (expire_old_intervals st.iregset li.start),
        ← @Prod.mk.eta _ _ (expire_old_intervals st.fregset li.start)]
      dsimp only
      obtain ⟨HpI, HpF, HmaxI, HmaxF, Hfin, Hnc, Htri⟩ := Hinv
      obtain ⟨HpI1, hImax, hItmp, hIex, hIact⟩ :=
        expire_prs_inv vregs false ra.phys_max st.iregset pos li.start HpI Hpos
      obtain ⟨HpF1, hFmax, hFtmp, hFex, hFact⟩ :=
        expire_prs_inv vregs true ra.fphys_max st.fregset pos li.start HpF Hpos
      have hcmI : (expire_old_intervals st.iregset li.start).1.phys_max =
          ra.phys_max := hImax.trans HmaxI
      have hcmF : (expire_old_intervals st.fregset li.start).1.phys_max =
          ra.fphys_max := hFmax.trans HmaxF
      have hOutI : ∀ q ∈ (expire_old_intervals st.iregset li.start).1.active,
          q ∈ alloc_output st := by
        intro q hq
        have hmem := hIact q hq
        simp only [alloc_output, List.mem_append]
        tauto
      have hOutF : ∀ q ∈ (expire_old_intervals st.fregset li.start).1.active,
          q ∈ alloc_output st := by
        intro q hq
        have hmem := hFact q hq
        simp only [alloc_output, List.mem_append]
        tauto
      have hExIOut : ∀ q ∈ (expire_old_intervals st.iregset li.start).2,
          q ∈ alloc_output st ∧ q.endp ≤ li.start := by
        intro q hq
        obtain ⟨hmem, hend⟩ := hIex q hq
        refine ⟨?_, hend⟩
        simp only [alloc_output, List.mem_append]
        tauto
      have hExFOut : ∀ q ∈ (expire_old_intervals st.fregset li.start).2,
          q ∈ alloc_output st ∧ q.endp ≤ li.start := by
        intro q hq
        obtain ⟨hmem, hend⟩ := hFex q hq
        refine ⟨?_, hend⟩
        simp only [alloc_output, List.mem_append]
        tauto
      have hFinOut : ∀ q ∈ st.finished, q ∈ alloc_output st := by
        intro q hq
        simp only [alloc_output, List.mem_append]
        tauto
      have hClsI : ∀ q ∈ (expire_old_intervals st.iregset li.start).1.active,
          ∃ v : RVReg, vregs.getD q.virt none = some v ∧ v.flonum = !true := by
        intro q hq
        obtain ⟨_, _, _, _, _, v, hv2, hvf2⟩ := HpI1.1 q hq
        exact ⟨v, hv2, by simp [hvf2]⟩
      have hClsF : ∀ q ∈ (expire_old_intervals st.fregset li.start).1.active,
          ∃ v : RVReg, vregs.getD q.virt none = some v ∧ v.flonum = !false := by
        intro q hq
        obtain ⟨_, _, _, _, _, v, hv2, hvf2⟩ := HpF1.1 q hq
        exact ⟨v, hv2, by simp [hvf2]⟩
      have hTriI : ∀ x ∈ (expire_old_intervals st.iregset li.start).2,
          li_trichotomy vregs ra x := by
        intro x hx v hv2
        obtain ⟨hmem, _⟩ := hIex x hx
        obtain ⟨hn, hp0, hplt, _, _, v2, hv3, hvf3⟩ := HpI.1 x hmem
        rw [hv2] at hv3
        have hveq : v = v2 := Option.some.inj hv3
        refine Or.inr (Or.inr ⟨hn, hp0, ?_⟩)
        rw [hveq, hvf3]
        simpa using hplt
      have hTriF : ∀ x ∈ (expire_old_intervals st.fregset li.start).2,
          li_trichotomy vregs ra x := by
        intro x hx v hv2
        obtain ⟨hmem, _⟩ := hFex x hx
        obtain ⟨hn, hp0, hplt, _, _, v2, hv3, hvf3⟩ := HpF.1 x hmem
        rw [hv2] at hv3
        have hveq : v = v2 := Option.some.inj hv3
        refine Or.inr (Or.inr ⟨hn, hp0, ?_⟩)
        rw [hveq, hvf3]
        simpa using hplt
      cases hflo : vreg.flonum with
      | false =>
        rw [if_neg (by decide : ¬(false = true)), ← @Prod.mk.eta _ _
          (reg_select ra (expire_old_intervals st.iregset li.start).1 vreg li)]
        dsimp only
        have hhintI : 0 ≤ vreg.reg_param_index →
            0 ≤ (if vreg.flonum then vreg.reg_param_index
                 else ra.reg_param_mapping vreg.reg_param_index.toNat) →
            (if vreg.flonum then vreg.reg_param_index
             else ra.reg_param_mapping vreg.reg_param_index.toNat) <
              (ra.phys_max : Int) := by
          intro h0 h1
          rw [hflo, if_neg (by decide : ¬(false = true))] at h1 ⊢
          exact Hmap vreg.reg_param_index.toNat h1
        obtain ⟨hRS1, hRS2, hRS3, hRS4, hRS5⟩ :=
          reg_select_inv ra vregs false ra.phys_max
            (expire_old_intervals st.iregset li.start).1 li vreg HpI1 hcmI hv
            hflo hst hhintI
        have hcore := ls_inv_core ra vregs li vreg pos false ra.phys_max
          (expire_old_intervals st.iregset li.start).1
          (expire_old_intervals st.fregset li.start).1
          (expire_old_intervals st.iregset li.start).2
          (expire_old_intervals st.fregset li.start).2
          st.finished (alloc_output st)
          HpI1 hcmI (by simp) hv hflo hst hhintI
          hOutI hOutF hClsF hExIOut hExFOut hFinOut Hfin Hpos Htri hTriI hTriF Hnc
        refine ⟨hRS1, HpF1, hRS2.trans hcmI, hcmF, hcore.2.1, ?_, hcore.2.2⟩
        intro p hp q hq
        refine hcore.1 p ?_ q ?_
        · simp only [alloc_output, List.mem_append] at hp
          tauto
        · simp only [alloc_output, List.mem_append] at hq
          tauto
      | true =>
        rw [if_pos (rfl : (true : Bool) = true), ← @Prod.mk.eta _ _
          (reg_select ra (expire_old_intervals st.fregset li.start).1 vreg li)]
        dsimp only
        have hhintF : 0 ≤ vreg.reg_param_index →
            0 ≤ (if vreg.flonum then vreg.reg_param_index
                 else ra.reg_param_mapping vreg.reg_param_index.toNat) →
            (if vreg.flonum then vreg.reg_param_index
             else ra.reg_param_mapping vreg.reg_param_index.toNat) <
              (ra.fphys_max : Int) := by
          intro h0 h1
          rw [hflo, if_pos rfl]
          exact Hflo vreg (getD_some_mem vregs li.virt vreg hv) hflo h0
        obtain ⟨hRS1, hRS2, hRS3, hRS4, hRS5⟩ :=
          reg_select_inv ra vregs true ra.fphys_max
            (expire_old_intervals st.fregset li.start).1 li vreg HpF1 hcmF hv
            hflo hst hhintF
        have hcore := ls_inv_core ra vregs li vreg pos true ra.fphys_max
          (expire_old_intervals st.fregset li.start).1
          (expire_old_intervals st.iregset li.start).1
          (expire_old_intervals st.fregset li.start).2
          (expire_old_intervals st.iregset li.start).2
          st.finished (alloc_output st)
          HpF1 hcmF (by simp) hv hflo hst hhintF
          hOutF hOutI hClsI hExFOut hExIOut hFinOut Hfin Hpos Htri hTriF hTriI Hnc
        refine ⟨HpI1, hRS1, hcmI, hRS2.trans hcmF, ?_, ?_, ?_⟩
        · intro x hx ha hb
          refine hcore.2.1 x ?_ ha hb
          simp only [List.mem_append] at hx ⊢
          tauto
        · intro p hp q hq
          refine hcore.1 p ?_ q ?_
          · simp only [alloc_output, List.mem_append] at hp
            tauto
          · simp only [alloc_output, List.mem_append] at hq
            tauto
        · intro x hx
          refine hcore.2.2 x ?_
          simp only [List.mem_append] at hx ⊢
          tauto
    · rw [if_pos hst]
      exact ls_inv_skip ra vregs st li pos li.start Hinv Hpos (Or.inr hst)

theorem initial_ls_inv (ra : RAConfig) (vregs : List (Option RVReg)) (pos : Int) :
    ls_inv ra vregs (initial_ls_state ra) pos := by
  refine ⟨⟨?_, ?_⟩, ⟨?_, ?_⟩, rfl, rfl, ?_, ?_, ?_⟩
  · intro q hq
    exact absurd hq (by simp [initial_ls_state])
  · simp [initial_ls_state]
  · intro q hq
    exact absurd hq (by simp [initial_ls_state])
  · simp [initial_ls_state]
  · intro q hq _ _
    exact absurd hq (by simp [initial_ls_state])
  · intro p hp
    exact absurd hp (by simp [initial_ls_state, alloc_output])
  · intro q hq
    exact absurd hq (by simp [initial_ls_state])

theorem linear_scan_fold_inv (ra : RAConfig) (vregs : List (Option RVReg))
    (Hmap : ∀ n : Nat, 0 ≤ ra.reg_param_mapping n →
      ra.reg_param_mapping n < (ra.phys_max : Int))
    (Hflo : ∀ v : RVReg, (some v) ∈ vregs → v.flonum = true →
      0 ≤ v.reg_param_index → v.reg_param_index < (ra.fphys_max : Int)) :
    ∀ (l : List LiveInterval) (st : LSState) (pos : Int),
      ls_inv ra vregs st pos → (∀ li ∈ l, pos ≤ li.start) →
      l.Pairwise (fun a b => a.start ≤ b.start) →
      ∃ fpos, ls_inv ra vregs (l.foldl (linear_scan_step ra vregs) st) fpos := by
  intro l
  induction l with
  | nil =>
    intro st pos h _ _
    exact ⟨pos, h⟩
  | cons a l ih =>
    intro st pos h hstart hp
    have hpc := List.pairwise_cons.mp hp
    refine ih (linear_scan_step ra vregs st a) a.start ?_ hpc.1 hpc.2
    exact linear_scan_step_inv ra vregs st a pos h (hstart a (by simp)) Hmap Hflo

/-- C2: after `linear_scan_register_allocation` runs over start-sorted live
intervals, no two distinct vregs of the same register class with overlapping
live intervals hold the same physical register, and every interval with a
vreg ends up constant, spilled, or assigned an in-range physical register of
its class. -/
theorem C2_linear_scan_no_conflict (ra : RAConfig) (vregs : List (Option RVReg))
    (intervals : List LiveInterval)
    (Hsort : List.Pairwise (fun a b => a.start ≤ b.start) intervals)
    (Hmap : ∀ n : Nat, 0 ≤ ra.reg_param_mapping n →
      ra.reg_param_mapping n < (ra.phys_max : Int))
    (Hflo : ∀ v : RVReg, (some v) ∈ vregs → v.flonum = true →
      0 ≤ v.reg_param_index → v.reg_param_index < (ra.fphys_max : Int)) :
    (∀ p ∈ alloc_output (linear_scan_register_allocation ra vregs intervals),
      ∀ q ∈ alloc_output (linear_scan_register_allocation ra vregs intervals),
      no_conflict vregs p q) ∧
    (∀ li ∈ alloc_output (linear_scan_register_allocation ra vregs intervals),
      li_trichotomy vregs ra li) := by
  have hmain : ∃ fpos, ls_inv ra vregs
      (linear_scan_register_allocation ra vregs intervals) fpos := by
    cases intervals with
    | nil => exact ⟨0, initial_ls_inv ra vregs 0⟩
    | cons a l =>
      refine linear_scan_fold_inv ra vregs Hmap Hflo (a :: l)
        (initial_ls_state ra) a.start (initial_ls_inv ra vregs a.start) ?_ Hsort
      intro li hli
      rcases List.mem_cons.mp hli with h | h
      · subst h
        exact le_refl li.start
      · exact (List.pairwise_cons.mp Hsort).1 li h
  obtain ⟨fpos, HpI, HpF, _, _, _, Hnc, Htri⟩ := hmain
  refine ⟨Hnc, ?_⟩
  intro x hx v hv2
  simp only [alloc_output, List.mem_append] at hx
  rcases hx with (h | h) | h
  · exact Htri x h v hv2
  · obtain ⟨hn, hp0, hplt, _, _, v2, hv3, hvf3⟩ := HpI.1 x h
    rw [hv2] at hv3
    have hveq : v = v2 := Option.some.inj hv3
    refine Or.inr (Or.inr ⟨hn, hp0, ?_⟩)
    rw [hveq, hvf3]
    simpa using hplt
  · obtain ⟨hn, hp0, hplt, _, _, v2, hv3, hvf3⟩ := HpF.1 x h
    rw [hv2] at hv3
    have hveq : v = v2 := Option.some.inj hv3
    refine Or.inr (Or.inr ⟨hn, hp0, ?_⟩)
    rw [hveq, hvf3]
    simpa using hplt

theorem C2_linear_scan_no_conflict_witness :
    (∀ p ∈ alloc_output (linear_scan_register_allocation
        ⟨2, 1, 2, 1, fun _ => -1⟩
        [some ⟨false, false, false, false, -1, -1⟩,
         some ⟨false, false, false, false, -1, -1⟩]
        [⟨0, 0, 10, -1, .LI_NORMAL, 0⟩, ⟨1, 5, 15, -1, .LI_NORMAL, 0⟩]),
      ∀ q ∈ alloc_output (linear_scan_register_allocation
        ⟨2, 1, 2, 1, fun _ => -1⟩
        [some ⟨false, false, false, false, -1, -1⟩,
         some ⟨false, false, false, false, -1, -1⟩]
        [⟨0, 0, 10, -1, .LI_NORMAL, 0⟩, ⟨1, 5, 15, -1, .LI_NORMAL, 0⟩]),
      no_conflict [some ⟨false, false, false, false, -1, -1⟩,
         some ⟨false, false, false, false, -1, -1⟩] p q) ∧
    (∀ li ∈ alloc_output (linear_scan_register_allocation
        ⟨2, 1, 2, 1, fun _ => -1⟩
        [some ⟨false, false, false, false, -1, -1⟩,
         some ⟨false, false, false, false, -1, -1⟩]
        [⟨0, 0, 10, -1, .LI_NORMAL, 0⟩, ⟨1, 5, 15, -1, .LI_NORMAL, 0⟩]),
      li_trichotomy [some ⟨false, false, false, false, -1, -1⟩,
         some ⟨false, false, false, false, -1, -1⟩] ⟨2, 1, 2, 1, fun _ => -1⟩ li) :=
  C2_linear_scan_no_conflict ⟨2, 1, 2, 1, fun _ => -1⟩
    [some ⟨false, false, false, false, -1, -1⟩,
     some ⟨false, false, false, false, -1, -1⟩]
    [⟨0, 0, 10, -1, .LI_NORMAL, 0⟩, ⟨1, 5, 15, -1, .LI_NORMAL, 0⟩]
    (by decide)
    (by intro n h; simp at h)
    (by
      intro v hv hf h0
      simp at hv
      subst hv
      exact absurd hf (by decide))

theorem spilled_operand_none_of_not_spilled (vregs : List SpillVReg) (id : Nat)
    (h : (vregs.getD id no_vreg).flagSpilled = false) :
    spilled_operand vregs (some id) = none := by
  have hc : ¬((vregs.getD id no_vreg).flagConst = false ∧
      (vregs.getD id no_vreg).flagSpilled = true) := by
    rintro ⟨_, h2⟩
    rw [h] at h2
    exact absurd h2 (by decide)
  simp only [spilled_operand, if_neg hc]

theorem spilled_operand_some (vregs : List SpillVReg) (ov : Option Nat) (id : Nat)
    (h : spilled_operand vregs ov = some id) :
    ov = some id ∧ (vregs.getD id no_vreg).flagConst = false ∧
      (vregs.getD id no_vreg).flagSpilled = true := by
  cases ov with
  | none => exact absurd h (by simp [spilled_operand])
  | some j =>
    simp only [spilled_operand] at h
    by_cases hc : (vregs.getD j no_vreg).flagConst = false ∧
        (vregs.getD j no_vreg).flagSpilled = true
    · rw [if_pos hc] at h
      have hj : j = id := Option.some.inj h
      subst hj
      exact ⟨rfl, hc.1, hc.2⟩
    · rw [if_neg hc] at h
      exact absurd h (by simp)

theorem spilled_operand_append (vregs ts : List SpillVReg)
    (hts : ∀ t ∈ ts, t.flagSpilled = false) (ov : Option Nat)
    (h : spilled_operand vregs ov = none) :
    spilled_operand (vregs ++ ts) ov = none := by
  cases ov with
  | none => simp [spilled_operand]
  | some id =>
    by_cases hid : id < vregs.length
    · simp only [spilled_operand] at h ⊢
      rw [List.getD_append _ _ _ _ hid]
      exact h
    · apply spilled_operand_none_of_not_spilled
      rw [List.getD_append_right _ _ _ _ (by omega)]
      by_cases hm : id - vregs.length < ts.length
      · rw [List.getD_eq_getElem _ _ hm]
        exact hts _ (List.getElem_mem hm)
      · rw [List.getD_eq_default _ _ (by omega)]
        rfl

theorem redirect_clean (vregs : List SpillVReg) (id : Nat) (ov : Option Nat)
    (h : ov = some id ∨ spilled_operand vregs ov = none) :
    spilled_operand (vregs ++ [(⟨false, false, true⟩ : SpillVReg)])
      (if ov = some id then some vregs.length else ov) = none := by
  by_cases hc : ov = some id
  · rw [if_pos hc]
    apply spilled_operand_none_of_not_spilled
    rw [List.getD_append_right _ _ _ _ (le_refl _)]
    simp
  · rw [if_neg hc]
    rcases h with h | h
    · exact absurd h hc
    · exact spilled_operand_append _ _ (by simp) _ h

theorem ir_clean_append (vregs ts : List SpillVReg)
    (hts : ∀ t ∈ ts, t.flagSpilled = false) (ir : IRM)
    (h : ir_clean vregs ir) : ir_clean (vregs ++ ts) ir := by
  rcases h with h | h | ⟨h1, h2, h4⟩
  · exact Or.inl h
  · exact Or.inr (Or.inl h)
  · exact Or.inr (Or.inr
      ⟨fun hf => spilled_operand_append vregs ts hts _ (h1 hf),
       fun hf => spilled_operand_append vregs ts hts _ (h2 hf),
       fun hf => spilled_operand_append vregs ts hts _ (h4 hf)⟩)

theorem insert_tmp_reg_spec (vregs : List SpillVReg) (ir : IRM) (spilled : Nat) :
    (insert_tmp_reg vregs ir spilled).1 = vregs ++ [⟨false, false, true⟩] ∧
    (insert_tmp_reg vregs ir spilled).2.2.1.kind = ir.kind ∧
    (insert_tmp_reg vregs ir spilled).2.2.1.opr1 =
      (if ir.opr1 = some spilled then some vregs.length else ir.opr1) ∧
    (insert_tmp_reg vregs ir spilled).2.2.1.opr2 =
      (if ir.opr2 = some spilled then some vregs.length else ir.opr2) ∧
    (insert_tmp_reg vregs ir spilled).2.2.1.dst =
      (if ir.dst = some spilled then some vregs.length else ir.dst) ∧
    (∀ l, (insert_tmp_reg vregs ir spilled).2.1 = some l →
      l.kind = .IR_LOAD_SPILLED) ∧
    (∀ l, (insert_tmp_reg vregs ir spilled).2.2.2 = some l →
      l.kind = .IR_STORE_SPILLED) := by
  by_cases h1 : ir.opr1 = some spilled ∨ ir.opr2 = some spilled
  · by_cases h2 : ir.dst = some spilled <;>
      refine ⟨?_, ?_, ?_, ?_, ?_, ?_, ?_⟩ <;>
        simp_all [insert_tmp_reg]
  · have h1a : ¬ir.opr1 = some spilled := fun hx => h1 (Or.inl hx)
    have h1b : ¬ir.opr2 = some spilled := fun hx => h1 (Or.inr hx)
    by_cases h2 : ir.dst = some spilled <;>
      refine ⟨?_, ?_, ?_, ?_, ?_, ?_, ?_⟩ <;>
        simp_all [insert_tmp_reg]

theorem place_tmp_spec (vregs : List SpillVReg) (before after : List IRM)
    (ir : IRM) (spilled : Nat) :
    (place_tmp vregs before after ir spilled).1 = vregs ++ [⟨false, false, true⟩] ∧
    (∀ op ∈ (place_tmp vregs before after ir spilled).2.1,
      op ∈ before ∨ op.kind = .IR_LOAD_SPILLED) ∧
    (∀ op ∈ (place_tmp vregs before after ir spilled).2.2.1,
      op ∈ after ∨ op.kind = .IR_LOAD_SPILLED ∨ op.kind = .IR_STORE_SPILLED) ∧
    (place_tmp vregs before after ir spilled).2.2.2.kind = ir.kind ∧
    (place_tmp vregs before after ir spilled).2.2.2.opr1 =
      (if ir.opr1 = some spilled then some vregs.length else ir.opr1) ∧
    (place_tmp vregs before after ir spilled).2.2.2.opr2 =
      (if ir.opr2 = some spilled then some vregs.length else ir.opr2) ∧
    (place_tmp vregs before after ir spilled).2.2.2.dst =
      (if ir.dst = some spilled then some vregs.length else ir.dst) := by
  obtain ⟨hpool, hkind, ho1, ho2, hdst, hld, hst⟩ := insert_tmp_reg_spec vregs ir spilled
  have hb : ∀ op ∈ (place_tmp vregs before after ir spilled).2.1,
      op ∈ before ∨ op.kind = .IR_LOAD_SPILLED := by
    intro op hop
    rcases hldE : (insert_tmp_reg vregs ir spilled).2.1 with _ | l
    · simp only [place_tmp, hldE] at hop
      exact Or.inl hop
    · simp only [place_tmp, hldE] at hop
      by_cases ha : after = []
      · rw [if_pos ha] at hop
        rcases List.mem_append.mp hop with h | h
        · exact Or.inl h
        · rw [List.mem_singleton] at h
          subst h
          exact Or.inr (hld op hldE)
      · rw [if_neg ha] at hop
        exact Or.inl hop
  have haf : ∀ op ∈ (place_tmp vregs before after ir spilled).2.2.1,
      op ∈ after ∨ op.kind = .IR_LOAD_SPILLED ∨ op.kind = .IR_STORE_SPILLED := by
    intro op hop
    rcases hldE : (insert_tmp_reg vregs ir spilled).2.1 with _ | l <;>
      rcases hstE : (insert_tmp_reg vregs ir spilled).2.2.2 with _ | t <;>
        simp only [place_tmp, hldE, hstE] at hop
    · exact Or.inl hop
    · rcases List.mem_append.mp hop with h | h
      · exact Or.inl h
      · rw [List.mem_singleton] at h
        subst h
        exact Or.inr (Or.inr (hst op hstE))
    · by_cases ha : after = []
      · rw [if_pos ha] at hop
        exact Or.inl hop
      · rw [if_neg ha] at hop
        rcases List.mem_cons.mp hop with h | h
        · subst h
          exact Or.inr (Or.inl (hld op hldE))
        · exact Or.inl h
    · by_cases ha : after = []
      · rw [if_pos ha] at hop
        rcases List.mem_append.mp hop with h | h
        · exact Or.inl h
        · rw [List.mem_singleton] at h
          subst h
          exact Or.inr (Or.inr (hst op hstE))
      · rw [if_neg ha] at hop
        rcases List.mem_append.mp hop with h | h
        · rcases List.mem_cons.mp h with h2 | h2
          · subst h2
            exact Or.inr (Or.inl (hld op hldE))
          · exact Or.inl h2
        · rw [List.mem_singleton] at h
          subst h
          exact Or.inr (Or.inr (hst op hstE))
  refine ⟨?_, hb, haf, ?_, ?_, ?_, ?_⟩
  · simp only [place_tmp]
    exact hpool
  · simp only [place_tmp]
    exact hkind
  · simp only [place_tmp]
    exact ho1
  · simp only [place_tmp]
    exact ho2
  · simp only [place_tmp]
    exact hdst

theorem spill_check_spec (vregs : List SpillVReg) (cond : Bool) (slot : Option Nat)
    (b a : List IRM) (ir : IRM) (n : Nat) :
    (∃ ts, (spill_check vregs cond slot b a ir n).1 = vregs ++ ts ∧
      ∀ t ∈ ts, t = (⟨false, false, true⟩ : SpillVReg)) ∧
    (spill_check vregs cond slot b a ir n).2.2.2.1.kind = ir.kind ∧
    (∀ op ∈ (spill_check vregs cond slot b a ir n).2.1,
      op ∈ b ∨ op.kind = .IR_LOAD_SPILLED) ∧
    (∀ op ∈ (spill_check vregs cond slot b a ir n).2.2.1,
      op ∈ a ∨ op.kind = .IR_LOAD_SPILLED ∨ op.kind = .IR_STORE_SPILLED) ∧
    (cond = false ∨ spilled_operand vregs slot = none →
      spill_check vregs cond slot b a ir n = (vregs, b, a, ir, n)) ∧
    (∀ id, spilled_operand vregs slot = some id → cond = true →
      (spill_check vregs cond slot b a ir n).1 =
        vregs ++ [⟨false, false, true⟩] ∧
      (spill_check vregs cond slot b a ir n).2.2.2.1.opr1 =
        (if ir.opr1 = some id then some vregs.length else ir.opr1) ∧
      (spill_check vregs cond slot b a ir n).2.2.2.1.opr2 =
        (if ir.opr2 = some id then some vregs.length else ir.opr2) ∧
      (spill_check vregs cond slot b a ir n).2.2.2.1.dst =
        (if ir.dst = some id then some vregs.length else ir.dst)) := by
  cases cond with
  | false =>
    have hE : spill_check vregs false slot b a ir n = (vregs, b, a, ir, n) := by
      rw [spill_check, if_neg (by decide : ¬(false = true))]
    rw [hE]
    refine ⟨⟨[], by simp, by simp⟩, rfl, ?_, ?_, fun _ => rfl, ?_⟩
    · intro op hop
      exact Or.inl hop
    · intro op hop
      exact Or.inl hop
    · intro id _ hc
      exact absurd hc (by decide)
  | true =>
    rcases hso : spilled_operand vregs slot with _ | id
    · have hE : spill_check vregs true slot b a ir n = (vregs, b, a, ir, n) := by
        rw [spill_check, if_pos rfl, hso]
      rw [hE]
      refine ⟨⟨[], by simp, by simp⟩, rfl, ?_, ?_, fun _ => rfl, ?_⟩
      · intro op hop
        exact Or.inl hop
      · intro op hop
        exact Or.inl hop
      · intro id2 hsome
        exact absurd hsome (by simp)
    · obtain ⟨hpool, hbm, ham, hkind, ho1, ho2, hdst⟩ := place_tmp_spec vregs b a ir id
      have hE : spill_check vregs true slot b a ir n =
          ((place_tmp vregs b a ir id).1, (place_tmp vregs b a ir id).2.1,
           (place_tmp vregs b a ir id).2.2.1, (place_tmp vregs b a ir id).2.2.2,
           n + 1) := by
        rw [spill_check, if_pos rfl, hso]
      rw [hE]
      refine ⟨⟨[⟨false, false, true⟩], hpool, by simp⟩, hkind, hbm, ham, ?_, ?_⟩
      · rintro (hc | hc)
        · exact absurd hc (by decide)
        · exact absurd hc (by simp)
      · intro id2 hsome _
        have hid : id = id2 := Option.some.inj hsome
        subst hid
        exact ⟨hpool, ho1, ho2, hdst⟩

theorem spill_check_clean_self (vregs : List SpillVReg) (cond : Bool)
    (slot : Option Nat) (b a : List IRM) (ir : IRM) (n : Nat)
    (sel : IRM → Option Nat)
    (hsel : sel = IRM.opr1 ∨ sel = IRM.opr2 ∨ sel = IRM.dst)
    (hcond : cond = true) (hslot : slot = sel ir) :
    spilled_operand (spill_check vregs cond slot b a ir n).1
      (sel ((spill_check vregs cond slot b a ir n).2.2.2.1)) = none := by
  subst hcond
  obtain ⟨_, _, _, _, hid, hfir⟩ := spill_check_spec vregs true slot b a ir n
  rcases hso : spilled_operand vregs slot with _ | id
  · rw [hid (Or.inr hso)]
    show spilled_operand vregs (sel ir) = none
    rw [← hslot]
    exact hso
  · obtain ⟨hov, _, _⟩ := spilled_operand_some vregs slot id hso
    obtain ⟨hpool, ho1, ho2, hdst⟩ := hfir id hso rfl
    rw [hpool]
    rcases hsel with hs | hs | hs <;> subst hs
    · rw [ho1]
      exact redirect_clean vregs id ir.opr1 (Or.inl (by rw [← hslot]; exact hov))
    · rw [ho2]
      exact redirect_clean vregs id ir.opr2 (Or.inl (by rw [← hslot]; exact hov))
    · rw [hdst]
      exact redirect_clean vregs id ir.dst (Or.inl (by rw [← hslot]; exact hov))

theorem spill_check_clean_other (vregs : List SpillVReg) (cond : Bool)
    (slot : Option Nat) (b a : List IRM) (ir : IRM) (n : Nat)
    (sel : IRM → Option Nat)
    (hsel : sel = IRM.opr1 ∨ sel = IRM.opr2 ∨ sel = IRM.dst)
    (h : spilled_operand vregs (sel ir) = none) :
    spilled_operand (spill_check vregs cond slot b a ir n).1
      (sel ((spill_check vregs cond slot b a ir n).2.2.2.1)) = none := by
  obtain ⟨_, _, _, _, hid, hfir⟩ := spill_check_spec vregs cond slot b a ir n
  cases cond with
  | false =>
    rw [hid (Or.inl rfl)]
    show spilled_operand vregs (sel ir) = none
    exact h
  | true =>
    rcases hso : spilled_operand vregs slot with _ | id
    · rw [hid (Or.inr hso)]
      show spilled_operand vregs (sel ir) = none
      exact h
    · obtain ⟨hpool, ho1, ho2, hdst⟩ := hfir id hso rfl
      rw [hpool]
      rcases hsel with hs | hs | hs <;> subst hs
      · rw [ho1]
        exact redirect_clean vregs id ir.opr1 (Or.inr h)
      · rw [ho2]
        exact redirect_clean vregs id ir.opr2 (Or.inr h)
      · rw [hdst]
        exact redirect_clean vregs id ir.dst (Or.inr h)

theorem process_ir_spec (vregs0 : List SpillVReg) (ir0 : IRM) :
    ∃ ts, (process_ir vregs0 ir0).1 = vregs0 ++ ts ∧
      (∀ t ∈ ts, t = (⟨false, false, true⟩ : SpillVReg)) ∧
      (∀ op ∈ (process_ir vregs0 ir0).2.1, ir_clean (process_ir vregs0 ir0).1 op) ∧
      (ir_clean vregs0 ir0 → process_ir vregs0 ir0 = (vregs0, [ir0], 0)) := by
  by_cases hk : ir0.kind = .IR_LOAD_SPILLED ∨ ir0.kind = .IR_STORE_SPILLED
  · have hE : process_ir vregs0 ir0 = (vregs0, [ir0], 0) := by
      rw [process_ir, if_pos hk]
    rw [hE]
    refine ⟨[], by simp, by simp, ?_, fun _ => rfl⟩
    intro op hop
    have hop2 : op ∈ [ir0] := hop
    rw [List.mem_singleton] at hop2
    subst hop2
    rcases hk with h | h
    · exact Or.inl h
    · exact Or.inr (Or.inl h)
  · set c1 := (ir_spill_flag ir0.kind &&& 1 != 0) with hc1def
    set s1 := spill_check vregs0 c1 ir0.opr1 [] [] ir0 0 with hs1def
    set c2 := (ir_spill_flag ir0.kind &&& 2 != 0) with hc2def
    set s2 := spill_check s1.1 c2 s1.2.2.2.1.opr2 s1.2.1 s1.2.2.1 s1.2.2.2.1
      s1.2.2.2.2 with hs2def
    set c3 := (ir_spill_flag ir0.kind &&& 4 != 0) with hc3def
    set s3 := spill_check s2.1 c3 s2.2.2.2.1.dst s2.2.1 s2.2.2.1 s2.2.2.2.1
      s2.2.2.2.2 with hs3def
    have hE : process_ir vregs0 ir0 =
        (s3.1, s3.2.1 ++ [s3.2.2.2.1] ++ s3.2.2.1, s3.2.2.2.2) := by
      rw [process_ir, if_neg hk]
    obtain ⟨⟨t1, hp1, ht1⟩, hk1, hb1, ha1, hid1, hfir1⟩ :=
      spill_check_spec vregs0 c1 ir0.opr1 [] [] ir0 0
    obtain ⟨⟨t2, hp2, ht2⟩, hk2, hb2, ha2, hid2, hfir2⟩ :=
      spill_check_spec s1.1 c2 s1.2.2.2.1.opr2 s1.2.1 s1.2.2.1 s1.2.2.2.1
        s1.2.2.2.2
    obtain ⟨⟨t3, hp3, ht3⟩, hk3, hb3, ha3, hid3, hfir3⟩ :=
      spill_check_spec s2.1 c3 s2.2.2.2.1.dst s2.2.1 s2.2.2.1 s2.2.2.2.1
        s2.2.2.2.2
    rw [← hs1def] at hp1 hk1 hb1 ha1 hid1 hfir1
    rw [← hs2def] at hp2 hk2 hb2 ha2 hid2 hfir2
    rw [← hs3def] at hp3 hk3 hb3 ha3 hid3 hfir3
    have hpool3 : s3.1 = vregs0 ++ (t1 ++ t2 ++ t3) := by
      rw [hp3, hp2, hp1]
      simp [List.append_assoc]
    have htmps : ∀ t ∈ t1 ++ t2 ++ t3, t = (⟨false, false, true⟩ : SpillVReg) := by
      intro t ht
      simp only [List.mem_append] at ht
      rcases ht with (h | h) | h
      · exact ht1 t h
      · exact ht2 t h
      · exact ht3 t h
    have hball : ∀ op ∈ s3.2.1, op.kind = .IR_LOAD_SPILLED := by
      intro op hop
      rcases hb3 op hop with h | h
      · rcases hb2 op h with h2 | h2
        · rcases hb1 op h2 with h3 | h3
          · exact absurd h3 (by simp)
          · exact h3
        · exact h2
      · exact h
    have haall : ∀ op ∈ s3.2.2.1,
        op.kind = .IR_LOAD_SPILLED ∨ op.kind = .IR_STORE_SPILLED := by
      intro op hop
      rcases ha3 op hop with h | h
      · rcases ha2 op h with h2 | h2
        · rcases ha1 op h2 with h3 | h3
          · exact absurd h3 (by simp)
          · exact h3
        · exact h2
      · exact h
    have hkind : s3.2.2.2.1.kind = ir0.kind := by
      rw [hk3, hk2, hk1]
    have hmid : ir_clean s3.1 s3.2.2.2.1 := by
      refine Or.inr (Or.inr ⟨?_, ?_, ?_⟩)
      · intro hbit
        rw [hkind] at hbit
        have hcond : c1 = true := by
          rw [hc1def]
          exact bne_iff_ne.mpr hbit
        have P1 := spill_check_clean_self vregs0 c1 ir0.opr1 [] [] ir0 0
          IRM.opr1 (Or.inl rfl) hcond rfl
        rw [← hs1def] at P1
        have P2 := spill_check_clean_other s1.1 c2 s1.2.2.2.1.opr2 s1.2.1
          s1.2.2.1 s1.2.2.2.1 s1.2.2.2.2 IRM.opr1 (Or.inl rfl) P1
        rw [← hs2def] at P2
        have P3 := spill_check_clean_other s2.1 c3 s2.2.2.2.1.dst s2.2.1
          s2.2.2.1 s2.2.2.2.1 s2.2.2.2.2 IRM.opr1 (Or.inl rfl) P2
        rw [← hs3def] at P3
        exact P3
      · intro hbit
        rw [hkind] at hbit
        have hcond : c2 = true := by
          rw [hc2def]
          exact bne_iff_ne.mpr hbit
        have P2 := spill_check_clean_self s1.1 c2 s1.2.2.2.1.opr2 s1.2.1
          s1.2.2.1 s1.2.2.2.1 s1.2.2.2.2 IRM.opr2 (Or.inr (Or.inl rfl)) hcond rfl
        rw [← hs2def] at P2
        have P3 := spill_check_clean_other s2.1 c3 s2.2.2.2.1.dst s2.2.1
          s2.2.2.1 s2.2.2.2.1 s2.2.2.2.2 IRM.opr2 (Or.inr (Or.inl rfl)) P2
        rw [← hs3def] at P3
        exact P3
      · intro hbit
        rw [hkind] at hbit
        have hcond : c3 = true := by
          rw [hc3def]
          exact bne_iff_ne.mpr hbit
        have P3 := spill_check_clean_self s2.1 c3 s2.2.2.2.1.dst s2.2.1
          s2.2.2.1 s2.2.2.2.1 s2.2.2.2.2 IRM.dst (Or.inr (Or.inr rfl)) hcond rfl
        rw [← hs3def] at P3
        exact P3
    have hident : ir_clean vregs0 ir0 → process_ir vregs0 ir0 = (vregs0, [ir0], 0) := by
      intro hcl
      rcases hcl with h | h | ⟨h1, h2, h4⟩
      · exact absurd (Or.inl h) hk
      · exact absurd (Or.inr h) hk
      · have hs1id : s1 = (vregs0, [], [], ir0, 0) := by
          cases hcv : c1 with
          | false => exact hid1 (Or.inl hcv)
          | true =>
            refine hid1 (Or.inr ?_)
            exact h1 (bne_iff_ne.mp (hc1def.symm.trans hcv))
        have hs2id : s2 = (vregs0, [], [], ir0, 0) := by
          have hd2 : c2 = false ∨ spilled_operand s1.1 s1.2.2.2.1.opr2 = none := by
            cases hcv : c2 with
            | false => exact Or.inl rfl
            | true =>
              refine Or.inr ?_
              rw [hs1id]
              show spilled_operand vregs0 ir0.opr2 = none
              exact h2 (bne_iff_ne.mp (hc2def.symm.trans hcv))
          have hq := hid2 hd2
          rw [hq, hs1id]
        have hs3id : s3 = (vregs0, [], [], ir0, 0) := by
          have hd3 : c3 = false ∨ spilled_operand s2.1 s2.2.2.2.1.dst = none := by
            cases hcv : c3 with
            | false => exact Or.inl rfl
            | true =>
              refine Or.inr ?_
              rw [hs2id]
              show spilled_operand vregs0 ir0.dst = none
              exact h4 (bne_iff_ne.mp (hc3def.symm.trans hcv))
          have hq := hid3 hd3
          rw [hq, hs2id]
        rw [hE, hs3id]
        simp
    refine ⟨t1 ++ t2 ++ t3, ?_, htmps, ?_, hident⟩
    · rw [hE]
      exact hpool3
    · intro op hop
      rw [hE] at hop
      rw [hE]
      have hop2 : op ∈ s3.2.1 ++ [s3.2.2.2.1] ++ s3.2.2.1 := hop
      show ir_clean s3.1 op
      rcases List.mem_append.mp hop2 with h | h
      · rcases List.mem_append.mp h with h2 | h2
        · exact Or.inl (hball op h2)
        · rw [List.mem_singleton] at h2
          subst h2
          exact hmid
      · rcases haall op h with h2 | h2
        · exact Or.inl h2
        · exact Or.inr (Or.inl h2)

theorem insert_pass_irs_spec (bb : List IRM) : ∀ vregs : List SpillVReg,
    ∃ ts, (insert_pass_irs vregs bb).1 = vregs ++ ts ∧
      (∀ t ∈ ts, t = (⟨false, false, true⟩ : SpillVReg)) ∧
      (∀ op ∈ (insert_pass_irs vregs bb).2.1,
        ir_clean (insert_pass_irs vregs bb).1 op) ∧
      ((∀ op ∈ bb, ir_clean vregs op) →
        insert_pass_irs vregs bb = (vregs, bb, 0)) := by
  induction bb with
  | nil =>
    intro vregs
    refine ⟨[], by simp [insert_pass_irs], by simp, ?_, fun _ => rfl⟩
    intro op hop
    have h0 : op ∈ ([] : List IRM) := hop
    exact absurd h0 (by simp)
  | cons ir rest ih =>
    intro vregs
    obtain ⟨t1, hp1, ht1, hcl1, hid1⟩ := process_ir_spec vregs ir
    obtain ⟨t2, hp2, ht2, hcl2, hid2⟩ := ih (process_ir vregs ir).1
    have hE : insert_pass_irs vregs (ir :: rest) =
        ((insert_pass_irs (process_ir vregs ir).1 rest).1,
         (process_ir vregs ir).2.1 ++
           (insert_pass_irs (process_ir vregs ir).1 rest).2.1,
         (process_ir vregs ir).2.2 +
           (insert_pass_irs (process_ir vregs ir).1 rest).2.2) := rfl
    have htspill : ∀ t ∈ t2, t.flagSpilled = false := fun t ht => by rw [ht2 t ht]
    refine ⟨t1 ++ t2, ?_, ?_, ?_, ?_⟩
    · rw [hE]
      show (insert_pass_irs (process_ir vregs ir).1 rest).1 = vregs ++ (t1 ++ t2)
      rw [hp2, hp1, List.append_assoc]
    · intro t ht
      rcases List.mem_append.mp ht with h | h
      · exact ht1 t h
      · exact ht2 t h
    · intro op hop
      rw [hE] at hop
      rw [hE]
      have hop2 : op ∈ (process_ir vregs ir).2.1 ++
          (insert_pass_irs (process_ir vregs ir).1 rest).2.1 := hop
      show ir_clean (insert_pass_irs (process_ir vregs ir).1 rest).1 op
      rcases List.mem_append.mp hop2 with h | h
      · rw [hp2]
        exact ir_clean_append _ _ htspill op (hcl1 op h)
      · exact hcl2 op h
    · intro hcl
      have hro : process_ir vregs ir = (vregs, [ir], 0) :=
        hid1 (hcl ir (by simp))
      have hrest : insert_pass_irs (process_ir vregs ir).1 rest =
          ((process_ir vregs ir).1, rest, 0) := by
        apply hid2
        intro op hop
        rw [hro]
        show ir_clean vregs op
        exact hcl op (List.mem_cons_of_mem _ hop)
      rw [hE, hrest, hro]
      simp

theorem insert_load_store_spilled_irs_spec (bbs : List (List IRM)) :
    ∀ vregs : List SpillVReg,
    ∃ ts, (insert_load_store_spilled_irs vregs bbs).1 = vregs ++ ts ∧
      (∀ t ∈ ts, t = (⟨false, false, true⟩ : SpillVReg)) ∧
      bbs_clean (insert_load_store_spilled_irs vregs bbs).1
        (insert_load_store_spilled_irs vregs bbs).2.1 ∧
      (bbs_clean vregs bbs →
        insert_load_store_spilled_irs vregs bbs = (vregs, bbs, 0)) := by
  induction bbs with
  | nil =>
    intro vregs
    refine ⟨[], by simp [insert_load_store_spilled_irs], by simp, ?_, fun _ => rfl⟩
    intro bb hbb
    have h0 : bb ∈ ([] : List (List IRM)) := hbb
    exact absurd h0 (by simp)
  | cons bb bbs ih =>
    intro vregs
    obtain ⟨t1, hp1, ht1, hcl1, hid1⟩ := insert_pass_irs_spec bb vregs
    obtain ⟨t2, hp2, ht2, hcl2, hid2⟩ := ih (insert_pass_irs vregs bb).1
    have hE : insert_load_store_spilled_irs vregs (bb :: bbs) =
        ((insert_load_store_spilled_irs (insert_pass_irs vregs bb).1 bbs).1,
         (insert_pass_irs vregs bb).2.1 ::
           (insert_load_store_spilled_irs (insert_pass_irs vregs bb).1 bbs).2.1,
         (insert_pass_irs vregs bb).2.2 +
           (insert_load_store_spilled_irs (insert_pass_irs vregs bb).1 bbs).2.2) :=
      rfl
    have htspill : ∀ t ∈ t2, t.flagSpilled = false := fun t ht => by rw [ht2 t ht]
    refine ⟨t1 ++ t2, ?_, ?_, ?_, ?_⟩
    · rw [hE]
      show (insert_load_store_spilled_irs (insert_pass_irs vregs bb).1 bbs).1 =
        vregs ++ (t1 ++ t2)
      rw [hp2, hp1, List.append_assoc]
    · intro t ht
      rcases List.mem_append.mp ht with h | h
      · exact ht1 t h
      · exact ht2 t h
    · rw [hE]
      intro bb2 hbb2 op hop
      have hbb3 : bb2 ∈ (insert_pass_irs vregs bb).2.1 ::
          (insert_load_store_spilled_irs (insert_pass_irs vregs bb).1 bbs).2.1 :=
        hbb2
      show ir_clean
        (insert_load_store_spilled_irs (insert_pass_irs vregs bb).1 bbs).1 op
      rcases List.mem_cons.mp hbb3 with h | h
      · subst h
        rw [hp2]
        exact ir_clean_append _ _ htspill op (hcl1 op hop)
      · exact hcl2 bb2 h op hop
    · intro hcl
      have h1 : insert_pass_irs vregs bb = (vregs, bb, 0) :=
        hid1 (fun op hop => hcl bb (by simp) op hop)
      have h2 : insert_load_store_spilled_irs (insert_pass_irs vregs bb).1 bbs =
          ((insert_pass_irs vregs bb).1, bbs, 0) := by
        apply hid2
        intro bb2 hbb2 op hop
        rw [h1]
        show ir_clean vregs op
        exact hcl bb2 (List.mem_cons_of_mem _ hbb2) op hop
      rw [hE, h2, h1]
      simp

theorem spillable_count_cons (v : SpillVReg) (l : List SpillVReg) :
    spillable_count (v :: l) = spillWeight v + spillable_count l := by
  rw [spillable_count, spillable_count, spillWeight, List.filter_cons]
  by_cases h : (!v.flagSpilled && !v.flagNoSpill) = true
  · rw [if_pos h, if_pos h, List.length_cons]
    omega
  · rw [if_neg h, if_neg h]
    omega

theorem spillable_count_append (v ts : List SpillVReg)
    (hts : ∀ t ∈ ts, t = (⟨false, false, true⟩ : SpillVReg)) :
    spillable_count (v ++ ts) = spillable_count v := by
  have hnil : ts.filter (fun x => !x.flagSpilled && !x.flagNoSpill) = [] := by
    apply List.filter_eq_nil_iff.mpr
    intro t ht
    rw [hts t ht]
    decide
  rw [spillable_count, spillable_count, List.filter_append, hnil, List.append_nil]

theorem getD_set_ne (l : List SpillVReg) (i j : Nat) (e : SpillVReg) (h : i ≠ j) :
    (l.set i e).getD j no_vreg = l.getD j no_vreg := by
  simp [List.getD_eq_getElem?_getD, List.getElem?_set_ne h]

theorem getD_set_self (l : List SpillVReg) (i : Nat) (e : SpillVReg)
    (h : i < l.length) : (l.set i e).getD i no_vreg = e := by
  rw [List.getD_eq_getElem _ _ (by simpa using h)]
  simp [List.getElem_set]

theorem spillable_count_set (l : List SpillVReg) : ∀ (j : Nat) (e : SpillVReg),
    j < l.length →
    spillable_count (l.set j e) + spillWeight (l.getD j no_vreg) =
      spillable_count l + spillWeight e := by
  induction l with
  | nil =>
    intro j e h
    simp at h
  | cons a rest ih =>
    intro j e h
    cases j with
    | zero =>
      rw [List.set_cons_zero, List.getD_cons_zero, spillable_count_cons,
        spillable_count_cons]
      omega
    | succ j =>
      rw [List.set_cons_succ, List.getD_cons_succ, spillable_count_cons,
        spillable_count_cons]
      have := ih j e (by simpa using h)
      omega

theorem spill_vregs_spec (choice : List Nat) : ∀ (vregs : List SpillVReg),
    (∀ j ∈ choice, (vregs.getD j no_vreg).flagNoSpill = false) →
    (spill_vregs vregs choice).length = vregs.length ∧
    (∀ i, (vregs.getD i no_vreg).flagSpilled = true →
      (spill_vregs vregs choice).getD i no_vreg = vregs.getD i no_vreg) ∧
    (∀ i, (vregs.getD i no_vreg).flagNoSpill = true →
      (spill_vregs vregs choice).getD i no_vreg = vregs.getD i no_vreg) ∧
    spillable_count (spill_vregs vregs choice) ≤ spillable_count vregs ∧
    (spill_vregs vregs choice ≠ vregs →
      spillable_count (spill_vregs vregs choice) < spillable_count vregs) := by
  induction choice with
  | nil =>
    intro vregs _
    exact ⟨rfl, fun i _ => rfl, fun i _ => rfl, le_refl _, fun h => absurd rfl h⟩
  | cons c rest ih =>
    intro vregs Hc
    have hEfold : spill_vregs vregs (c :: rest) =
        spill_vregs (if h : c < vregs.length then
          (if (vregs.get ⟨c, h⟩).flagSpilled then vregs
           else vregs.set c (spill_vreg (vregs.get ⟨c, h⟩))) else vregs) rest := rfl
    by_cases hlt : c < vregs.length
    · by_cases hsp : (vregs.get ⟨c, hlt⟩).flagSpilled = true
      · have hstep : (if h : c < vregs.length then
            (if (vregs.get ⟨c, h⟩).flagSpilled then vregs
             else vregs.set c (spill_vreg (vregs.get ⟨c, h⟩))) else vregs) = vregs := by
          rw [dif_pos hlt, if_pos hsp]
        rw [hEfold, hstep]
        exact ih vregs (fun j hj => Hc j (List.mem_cons_of_mem _ hj))
      · have hspf : (vregs.get ⟨c, hlt⟩).flagSpilled = false :=
          Bool.eq_false_iff.mpr hsp
        have hcn : (vregs.getD c no_vreg).flagNoSpill = false := Hc c (by simp)
        have hgetD : vregs.getD c no_vreg = vregs.get ⟨c, hlt⟩ := by
          rw [List.getD_eq_getElem _ _ hlt, List.get_eq_getElem]
        have hspf2 : (vregs.getD c no_vreg).flagSpilled = false := by
          rw [hgetD]
          exact hspf
        have hstep : (if h : c < vregs.length then
            (if (vregs.get ⟨c, h⟩).flagSpilled then vregs
             else vregs.set c (spill_vreg (vregs.get ⟨c, h⟩))) else vregs) =
            vregs.set c (spill_vreg (vregs.get ⟨c, hlt⟩)) := by
          rw [dif_pos hlt, if_neg]
          rw [hspf]
          exact (by decide : ¬(false = true))
        have hlen : (vregs.set c (spill_vreg (vregs.get ⟨c, hlt⟩))).length =
            vregs.length := by simp
        have hcount : spillable_count
            (vregs.set c (spill_vreg (vregs.get ⟨c, hlt⟩))) + 1 =
            spillable_count vregs := by
          have hset := spillable_count_set vregs c
            (spill_vreg (vregs.get ⟨c, hlt⟩)) hlt
          have hw1 : spillWeight (vregs.getD c no_vreg) = 1 := by
            rw [spillWeight, if_pos]
            rw [hspf2, hcn]
            decide
          have hw0 : spillWeight (spill_vreg (vregs.get ⟨c, hlt⟩)) = 0 := by
            rw [spillWeight, if_neg]
            simp [spill_vreg]
          omega
        have HcStep : ∀ j ∈ rest,
            ((vregs.set c (spill_vreg (vregs.get ⟨c, hlt⟩))).getD j
              no_vreg).flagNoSpill = false := by
          intro j hj
          by_cases hjc : c = j
          · subst hjc
            rw [getD_set_self _ _ _ hlt]
            show (vregs.get ⟨c, hlt⟩).flagNoSpill = false
            rw [← hgetD]
            exact hcn
          · rw [getD_set_ne _ _ _ _ hjc]
            exact Hc j (List.mem_cons_of_mem _ hj)
        obtain ⟨ihlen, ihsp, ihns, ihle, ihlt2⟩ :=
          ih (vregs.set c (spill_vreg (vregs.get ⟨c, hlt⟩))) HcStep
        rw [hEfold, hstep]
        refine ⟨?_, ?_, ?_, ?_, ?_⟩
        · rw [ihlen, hlen]
        · intro i hi
          have hic : ¬(c = i) := by
            intro hci
            subst hci
            rw [hspf2] at hi
            exact absurd hi (by decide)
          have hstepGet := getD_set_ne vregs c i
            (spill_vreg (vregs.get ⟨c, hlt⟩)) hic
          rw [ihsp i (by rw [hstepGet]; exact hi), hstepGet]
        · intro i hi
          have hic : ¬(c = i) := by
            intro hci
            subst hci
            rw [hcn] at hi
            exact absurd hi (by decide)
          have hstepGet := getD_set_ne vregs c i
            (spill_vreg (vregs.get ⟨c, hlt⟩)) hic
          rw [ihns i (by rw [hstepGet]; exact hi), hstepGet]
        · omega
        · intro _
          omega
    · have hstep : (if h : c < vregs.length then
          (if (vregs.get ⟨c, h⟩).flagSpilled then vregs
           else vregs.set c (spill_vreg (vregs.get ⟨c, h⟩))) else vregs) = vregs :=
        dif_neg hlt
      rw [hEfold, hstep]
      exact ih vregs (fun j hj => Hc j (List.mem_cons_of_mem _ hj))

theorem vreg_evolution_refl (v : List SpillVReg) : vreg_evolution v v :=
  ⟨le_refl _, fun _ _ => rfl, fun _ _ _ => rfl,
   fun _ h1 h2 => absurd h2 (by omega)⟩

theorem vreg_evolution_trans (a b c : List SpillVReg)
    (h1 : vreg_evolution a b) (h2 : vreg_evolution b c) : vreg_evolution a c := by
  obtain ⟨l1, sp1, ns1, nw1⟩ := h1
  obtain ⟨l2, sp2, ns2, nw2⟩ := h2
  refine ⟨le_trans l1 l2, ?_, ?_, ?_⟩
  · intro i hi
    have hb := sp1 i hi
    have hbsp : (b.getD i no_vreg).flagSpilled = true := by
      rw [hb]
      exact hi
    rw [sp2 i hbsp, hb]
  · intro i hia hins
    have hb := ns1 i hia hins
    have hbns : (b.getD i no_vreg).flagNoSpill = true := by
      rw [hb]
      exact hins
    have hib : i < b.length := lt_of_lt_of_le hia l1
    rw [ns2 i hib hbns, hb]
  · intro i hia hic
    by_cases hib : i < b.length
    · have hb := nw1 i hia hib
      have hbns : (b.getD i no_vreg).flagNoSpill = true := by rw [hb]
      rw [ns2 i hib hbns, hb]
    · exact nw2 i (by omega) hic

theorem vreg_evolution_spill (vregs : List SpillVReg) (choice : List Nat)
    (Hc : ∀ j ∈ choice, (vregs.getD j no_vreg).flagNoSpill = false) :
    vreg_evolution vregs (spill_vregs vregs choice) := by
  obtain ⟨hlen, hsp, hns, _, _⟩ := spill_vregs_spec choice vregs Hc
  refine ⟨le_of_eq hlen.symm, hsp, fun i _ h => hns i h, ?_⟩
  intro i h1 h2
  rw [hlen] at h2
  exact absurd h2 (by omega)

theorem vreg_evolution_append (v ts : List SpillVReg)
    (hts : ∀ t ∈ ts, t = (⟨false, false, true⟩ : SpillVReg)) :
    vreg_evolution v (v ++ ts) := by
  refine ⟨by simp, ?_, ?_, ?_⟩
  · intro i hi
    by_cases h : i < v.length
    · exact List.getD_append _ _ _ _ h
    · rw [List.getD_eq_default _ _ (by omega)] at hi
      exact absurd hi (by decide)
  · intro i hlt _
    exact List.getD_append _ _ _ _ hlt
  · intro i h1 h2
    rw [List.getD_append_right _ _ _ _ h1]
    have hm : i - v.length < ts.length := by
      rw [List.length_append] at h2
      omega
    rw [List.getD_eq_getElem _ _ hm]
    exact hts _ (List.getElem_mem hm)

theorem alloc_round_spec (choose : AllocState → List Nat) (st : AllocState)
    (Hc : ∀ j ∈ choose st, (st.vregs.getD j no_vreg).flagNoSpill = false) :
    vreg_evolution st.vregs (alloc_round choose st).1.vregs ∧
    bbs_clean (alloc_round choose st).1.vregs (alloc_round choose st).1.bbs ∧
    spillable_count (alloc_round choose st).1.vregs ≤ spillable_count st.vregs ∧
    (spill_vregs st.vregs (choose st) = st.vregs → bbs_clean st.vregs st.bbs →
      alloc_round choose st = (⟨st.vregs, st.bbs⟩, 0)) ∧
    (spill_vregs st.vregs (choose st) ≠ st.vregs →
      spillable_count (alloc_round choose st).1.vregs <
        spillable_count st.vregs) := by
  obtain ⟨hlen, hsp, hns, hle, hlt⟩ := spill_vregs_spec (choose st) st.vregs Hc
  obtain ⟨ts, hpool, hts, hclean, hident⟩ :=
    insert_load_store_spilled_irs_spec st.bbs (spill_vregs st.vregs (choose st))
  have hE : alloc_round choose st =
      (⟨(insert_load_store_spilled_irs (spill_vregs st.vregs (choose st))
          st.bbs).1,
        (insert_load_store_spilled_irs (spill_vregs st.vregs (choose st))
          st.bbs).2.1⟩,
       (insert_load_store_spilled_irs (spill_vregs st.vregs (choose st))
         st.bbs).2.2) := rfl
  rw [hE]
  refine ⟨?_, ?_, ?_, ?_, ?_⟩
  · show vreg_evolution st.vregs
      (insert_load_store_spilled_irs (spill_vregs st.vregs (choose st)) st.bbs).1
    refine vreg_evolution_trans _ (spill_vregs st.vregs (choose st)) _
      (vreg_evolution_spill st.vregs (choose st) Hc) ?_
    rw [hpool]
    exact vreg_evolution_append _ _ hts
  · exact hclean
  · show spillable_count
      (insert_load_store_spilled_irs (spill_vregs st.vregs (choose st))
        st.bbs).1 ≤ spillable_count st.vregs
    rw [hpool, spillable_count_append _ _ hts]
    exact hle
  · intro hnochange hcleanIn
    have h0 := hident (by rw [hnochange]; exact hcleanIn)
    rw [h0, hnochange]
  · intro hchange
    show spillable_count
      (insert_load_store_spilled_irs (spill_vregs st.vregs (choose st))
        st.bbs).1 < spillable_count st.vregs
    rw [hpool, spillable_count_append _ _ hts]
    exact hlt hchange

theorem alloc_iterate_succ (choose : AllocState → List Nat) (k : Nat)
    (st : AllocState) :
    alloc_iterate choose (k + 1) st =
      if (alloc_round choose st).2 = 0 then some (alloc_round choose st).1
      else alloc_iterate choose k (alloc_round choose st).1 := rfl

theorem alloc_iterate_clean (choose : AllocState → List Nat)
    (Hns : ∀ s : AllocState, ∀ j ∈ choose s,
      (s.vregs.getD j no_vreg).flagNoSpill = false) :
    ∀ (k : Nat) (st : AllocState), bbs_clean st.vregs st.bbs →
      spillable_count st.vregs ≤ k →
      ∃ st', alloc_iterate choose (k + 1) st = some st' ∧
        vreg_evolution st.vregs st'.vregs := by
  intro k
  induction k with
  | zero =>
    intro st hclean hcount
    obtain ⟨hev, hcl2, hle, hid, hlt⟩ := alloc_round_spec choose st (Hns st)
    by_cases hch : spill_vregs st.vregs (choose st) = st.vregs
    · have hr := hid hch hclean
      refine ⟨⟨st.vregs, st.bbs⟩, ?_, vreg_evolution_refl st.vregs⟩
      rw [alloc_iterate_succ, hr]
      simp
    · have := hlt hch
      omega
  | succ k ih =>
    intro st hclean hcount
    obtain ⟨hev, hcl2, hle, hid, hlt⟩ := alloc_round_spec choose st (Hns st)
    by_cases hn : (alloc_round choose st).2 = 0
    · refine ⟨(alloc_round choose st).1, ?_, hev⟩
      rw [alloc_iterate_succ, if_pos hn]
    · have hch : spill_vregs st.vregs (choose st) ≠ st.vregs := by
        intro heq
        have h0 := hid heq hclean
        rw [h0] at hn
        exact hn rfl
      have hcount2 : spillable_count (alloc_round choose st).1.vregs ≤ k := by
        have := hlt hch
        omega
      obtain ⟨st', hit, hev2⟩ := ih (alloc_round choose st).1 hcl2 hcount2
      refine ⟨st', ?_, vreg_evolution_trans _ _ _ hev hev2⟩
      rw [alloc_iterate_succ, if_neg hn]
      exact hit

/-- C4: the spill-insertion fixpoint loop of `alloc_physical_registers`
terminates within `spillable_count + 2` rounds — provided, as the allocator
arranges, the analysis never selects a `VRF_NO_SPILL` vreg for spilling —
and the spilled set grows monotonically across the loop: a vreg once
flagged spilled is never un-spilled or re-processed (its record is frozen),
and every vreg the insertion pass spawns is a no-spill temporary. -/
theorem C4_spill_fixpoint (choose : AllocState → List Nat) (st : AllocState)
    (Hns : ∀ s : AllocState, ∀ j ∈ choose s,
      (s.vregs.getD j no_vreg).flagNoSpill = false) :
    ∃ st', alloc_iterate choose (spillable_count st.vregs + 2) st = some st' ∧
      st.vregs.length ≤ st'.vregs.length ∧
      (∀ i, (st.vregs.getD i no_vreg).flagSpilled = true →
        st'.vregs.getD i no_vreg = st.vregs.getD i no_vreg) ∧
      (∀ i, st.vregs.length ≤ i → i < st'.vregs.length →
        st'.vregs.getD i no_vreg = (⟨false, false, true⟩ : SpillVReg)) := by
  obtain ⟨hev, hcl2, hle, hid, hlt⟩ := alloc_round_spec choose st (Hns st)
  have h2 : spillable_count st.vregs + 2 =
      (spillable_count st.vregs + 1) + 1 := rfl
  by_cases hn : (alloc_round choose st).2 = 0
  · refine ⟨(alloc_round choose st).1, ?_, hev.1, hev.2.1, hev.2.2.2⟩
    rw [h2, alloc_iterate_succ, if_pos hn]
  · obtain ⟨st', hit, hev2⟩ := alloc_iterate_clean choose Hns
      (spillable_count st.vregs) (alloc_round choose st).1 hcl2 hle
    have hevc := vreg_evolution_trans _ _ _ hev hev2
    refine ⟨st', ?_, hevc.1, hevc.2.1, hevc.2.2.2⟩
    rw [h2, alloc_iterate_succ, if_neg hn]
    exact hit

theorem C4_spill_fixpoint_witness :
    ∃ st', alloc_iterate (fun _ => [])
        (spillable_count [(⟨false, true, false⟩ : SpillVReg)] + 2)
        ⟨[⟨false, true, false⟩], [[⟨.IR_ADD, some 0, some 0, none⟩]]⟩ =
          some st' ∧
      [(⟨false, true, false⟩ : SpillVReg)].length ≤ st'.vregs.length ∧
      (∀ i, (([(⟨false, true, false⟩ : SpillVReg)]).getD i
          no_vreg).flagSpilled = true →
        st'.vregs.getD i no_vreg =
          ([(⟨false, true, false⟩ : SpillVReg)]).getD i no_vreg) ∧
      (∀ i, ([(⟨false, true, false⟩ : SpillVReg)]).length ≤ i →
        i < st'.vregs.length →
        st'.vregs.getD i no_vreg = (⟨false, false, true⟩ : SpillVReg)) :=
  C4_spill_fixpoint (fun _ => [])
    ⟨[⟨false, true, false⟩], [[⟨.IR_ADD, some 0, some 0, none⟩]]⟩
    (by intro s j hj; simp at hj)

end Xcc
